import Mathlib

/-!
Verification of the WEFT compile-time core (wrust): dependency-graph
construction, context typing, meta-graph building, and the runtime
Coordinator.  The definitions below are a shallow embedding of the Rust
sources under src/wrust/src; Rust HashMap / HashSet containers are
modelled as insertion-ordered association lists (Rust iteration order
over these containers is unspecified; where a result depends on that
order the order is taken as an explicit parameter), machine floats that
the core merely passes through are modelled as integers, and a Rust
panic (out-of-bounds index) is modelled as `Option.none`.
-/

namespace Weft

/-- Execution context of a backend (backend_registry.rs). -/
inductive Context where
  | visual
  | audio
  | compute
deriving DecidableEq, Repr

/-- Numeric priority: Visual highest (backend_registry.rs, Context::priority). -/
def Context.priority : Context → Nat
  | .visual => 0
  | .audio => 1
  | .compute => 2

/-- Discriminant of the Rust enum (`ctx as u8`), used by build_context_dag. -/
def Context.ordinal : Context → Nat
  | .visual => 0
  | .audio => 1
  | .compute => 2

/-- Context::name (backend_registry.rs). -/
def Context.name : Context → String
  | .visual => "Visual"
  | .audio => "Audio"
  | .compute => "Compute"

/-- Context::name().to_lowercase(), as used for duplicate node names. -/
def Context.lowerName : Context → String
  | .visual => "visual"
  | .audio => "audio"
  | .compute => "compute"

/-- backend_registry::get_context - sink keyword to context. -/
def getContext (backendKeyword : String) : Option Context :=
  if backendKeyword = "display" ∨ backendKeyword = "render" ∨ backendKeyword = "render_3d" then
    some .visual
  else if backendKeyword = "play" then
    some .audio
  else if backendKeyword = "compute" ∨ backendKeyword = "data" ∨ backendKeyword = "web" ∨
      backendKeyword = "osc" ∨ backendKeyword = "midi" then
    some .compute
  else
    none

/-- builtin_registry::get_builtin_context - inherent-context builtins. -/
def getBuiltinContext (builtinName : String) : Option Context :=
  if builtinName = "load_movie" ∨ builtinName = "load_video" ∨ builtinName = "load_image" ∨
      builtinName = "camera" ∨ builtinName = "camera_in" then
    some .visual
  else if builtinName = "load_audio" ∨ builtinName = "mic_in" ∨ builtinName = "microphone" then
    some .audio
  else
    none

/-- AST of the surface language (ast.rs).  f64 literals are opaque to the
core, so they are modelled as integers; StrandRemap axis mappings are
(axis, expr) pairs. -/
inductive ASTNode where
  | binary (op : String) (left right : ASTNode)
  | unary (op : String) (expr : ASTNode)
  | call (callee : ASTNode) (args : List ASTNode)
  | var (name : String)
  | num (v : Int)
  | str (v : String)
  | me (field : String)
  | tuple (items : List ASTNode)
  | indexE (base idx : ASTNode)
  | strandAccess (base out : ASTNode)
  | strandRemap (base : ASTNode) (strand : String) (mappings : List (ASTNode × ASTNode))
  | ifE (condition thenExpr elseExpr : ASTNode)
  | assignment (name op : String) (expr : ASTNode) (isOutput : Bool)
  | backendStmt (context : String) (args : List ASTNode)
      (namedArgs : List (String × ASTNode)) (positionalArgs : List ASTNode)
  | spindleDef (name : String) (inputs outputs : List String) (body : ASTNode)
  | instanceBinding (name : String) (outputs : List String) (expr : ASTNode)
deriving Repr

/-- Program = ordered statement list (ast.rs). -/
def Program := List ASTNode

/-- The slice of Env the graph builder reads: the names of user spindle
definitions (env.spindles keys). -/
structure Env where
  spindles : List String
deriving DecidableEq, Repr

/-- Association-list lookup, modelling HashMap::get. -/
def lookupKey {α : Type} (l : List (String × α)) (k : String) : Option α :=
  match l with
  | [] => none
  | (k2, v) :: rest => if k2 = k then some v else lookupKey rest k

/-- Association-list insert-or-replace, modelling HashMap::insert
(insertion-ordered determinization of the unordered Rust map). -/
def upsert {α : Type} (l : List (String × α)) (k : String) (v : α) : List (String × α) :=
  match l with
  | [] => [(k, v)]
  | (k2, v2) :: rest => if k2 = k then (k, v) :: rest else (k2, v2) :: upsert rest k v

/-- HashSet::insert on an insertion-ordered duplicate-free list. -/
def insertSet (l : List String) (x : String) : List String :=
  if x ∈ l then l else l ++ [x]

/-- HashSet::extend - union preserving the insertion order of the left set. -/
def extendSet (l : List String) (xs : List String) : List String :=
  xs.foldl insertSet l

mutual

/-- find_deps_in_expr (render_graph.rs): instance names referenced by an
expression, accumulated into the set `deps`. -/
def findDepsInExpr (e : ASTNode) (deps : List String) : List String :=
  match e with
  | .strandAccess base _ =>
      match base with
      | .var name => insertSet deps name
      | _ => deps
  | .strandRemap base _ mappings =>
      let d :=
        match base with
        | .var name => insertSet deps name
        | _ => deps
      findDepsInMappings mappings d
  | .binary _ l r => findDepsInExpr r (findDepsInExpr l deps)
  | .unary _ x => findDepsInExpr x deps
  | .call _ args => findDepsInList args deps
  | .ifE c t f => findDepsInExpr f (findDepsInExpr t (findDepsInExpr c deps))
  | .tuple items => findDepsInList items deps
  | .indexE b i => findDepsInExpr i (findDepsInExpr b deps)
  | _ => deps

/-- Walk of an argument/item list for find_deps_in_expr. -/
def findDepsInList (es : List ASTNode) (deps : List String) : List String :=
  match es with
  | [] => deps
  | e :: rest => findDepsInList rest (findDepsInExpr e deps)

/-- Walk of remap mappings (right-hand sides only) for find_deps_in_expr. -/
def findDepsInMappings (ms : List (ASTNode × ASTNode)) (deps : List String) : List String :=
  match ms with
  | [] => deps
  | m :: rest => findDepsInMappings rest (findDepsInExpr m.2 deps)

end

mutual

/-- find_output_deps_in_expr (render_graph.rs): the ordered list of
(instance, strand) pairs an expression consumes. -/
def findOutputDepsInExpr (e : ASTNode) (deps : List (String × String)) :
    List (String × String) :=
  match e with
  | .strandAccess base out =>
      match base, out with
      | .var baseName, .var outName => deps ++ [(baseName, outName)]
      | _, _ => deps
  | .strandRemap base strand mappings =>
      let d :=
        match base with
        | .var baseName => deps ++ [(baseName, strand)]
        | _ => deps
      findOutputDepsInMappings mappings d
  | .binary _ l r => findOutputDepsInExpr r (findOutputDepsInExpr l deps)
  | .unary _ x => findOutputDepsInExpr x deps
  | .call _ args => findOutputDepsInList args deps
  | .ifE c t f => findOutputDepsInExpr f (findOutputDepsInExpr t (findOutputDepsInExpr c deps))
  | .tuple items => findOutputDepsInList items deps
  | .indexE b i => findOutputDepsInExpr i (findOutputDepsInExpr b deps)
  | _ => deps

/-- Walk of an argument/item list for find_output_deps_in_expr. -/
def findOutputDepsInList (es : List ASTNode) (deps : List (String × String)) :
    List (String × String) :=
  match es with
  | [] => deps
  | e :: rest => findOutputDepsInList rest (findOutputDepsInExpr e deps)

/-- Walk of remap mappings for find_output_deps_in_expr. -/
def findOutputDepsInMappings (ms : List (ASTNode × ASTNode))
    (deps : List (String × String)) : List (String × String) :=
  match ms with
  | [] => deps
  | m :: rest => findOutputDepsInMappings rest (findOutputDepsInExpr m.2 deps)

end

/-- Node classification (render_graph.rs NodeType). -/
inductive NodeType where
  | expression
  | spindle
  | builtin
deriving DecidableEq, Repr

/-- check_node_type (render_graph.rs): calls to user spindles are Spindle,
any other call is Builtin, everything else Expression. -/
def checkNodeType (expr : ASTNode) (env : Env) : NodeType :=
  match expr with
  | .call callee _ =>
      match callee with
      | .var name => if name ∈ env.spindles then .spindle else .builtin
      | _ => .builtin
  | _ => .expression

/-- Edge label (render_graph.rs EdgeType). -/
inductive EdgeType where
  | normal
  | reference
deriving DecidableEq, Repr

/-- Arena node of the render graph (render_graph.rs GraphNode). -/
structure GraphNode where
  instance_name : String
  original_name : Option String
  node_type : NodeType
  context : Option Context
  outputs : List (String × ASTNode)
  deps : List String
  output_deps : List (String × List (String × String))
  required_outputs : List String
  is_duplicate : Bool
  typed_by_child : Option String
deriving Repr

/-- Whole builder state (render_graph.rs RenderGraph): an arena of nodes
(indices are positions), labeled directed edges child -> parent, the
name -> index map, the duplication plan, and the original edge list. -/
structure RenderGraph where
  nodes : List GraphNode
  edges : List (Nat × Nat × EdgeType)
  nodeIndices : List (String × Nat)
  duplicateInto : List (String × List Context)
  originalEdges : List (String × String)
deriving Repr

def RenderGraph.empty : RenderGraph :=
  { nodes := [], edges := [], nodeIndices := [], duplicateInto := [], originalEdges := [] }

/-- Context of the node at arena index i (None both for an untyped node
and for an out-of-range index, which in Rust would panic). -/
def ctxOf (st : RenderGraph) (i : Nat) : Option Context :=
  (st.nodes.get? i).bind (·.context)

/-- Replace the context of node i by c (self.graph[idx].context = Some(c)). -/
def setNodeCtx (st : RenderGraph) (i : Nat) (c : Context) : RenderGraph :=
  match st.nodes.get? i with
  | none => st
  | some n => { st with nodes := st.nodes.set i { n with context := some c } }

/-- Arena indices of outgoing neighbors (dependents) of node i. -/
def outNeighbors (st : RenderGraph) (i : Nat) : List Nat :=
  st.edges.filterMap fun e => if e.1 = i then some e.2.1 else none

/-- Arena indices of incoming neighbors (dependencies) of node i. -/
def inNeighbors (st : RenderGraph) (i : Nat) : List Nat :=
  st.edges.filterMap fun e => if e.2.1 = i then some e.1 else none

/-- Accumulator of the per-binding loop in collect_instances: the outputs
map, the output_deps map and the all_deps set. -/
structure BindAcc where
  outputs : List (String × ASTNode)
  output_deps : List (String × List (String × String))
  all_deps : List String
deriving Repr

/-- One iteration of the tuple branch of collect_instances: output i is
paired with tuple item i when it exists, extra outputs are skipped. -/
def collectTupleStep (items : List ASTNode) (acc : BindAcc) (iname : Nat × String) : BindAcc :=
  match items.get? iname.1 with
  | none => acc
  | some expr =>
      { outputs := upsert acc.outputs iname.2 expr
        output_deps := upsert acc.output_deps iname.2 (findOutputDepsInExpr expr [])
        all_deps := extendSet acc.all_deps (findDepsInExpr expr []) }

/-- Enumerated list, mirroring Rust .iter().enumerate() from index i. -/
def enumFrom {α : Type} (i : Nat) (l : List α) : List (Nat × α) :=
  match l with
  | [] => []
  | a :: rest => (i, a) :: enumFrom (i + 1) rest

/-- One iteration of the non-tuple branch: every output receives a clone
of the whole expression. -/
def collectWholeStep (expr : ASTNode) (acc : BindAcc) (outputName : String) : BindAcc :=
  { outputs := upsert acc.outputs outputName expr
    output_deps := upsert acc.output_deps outputName (findOutputDepsInExpr expr [])
    all_deps := extendSet acc.all_deps (findDepsInExpr expr []) }

/-- The outputs / output_deps / deps triple a binding produces
(collect_instances, render_graph.rs lines 95-131).  The tuple branch is
taken for every Tuple expression regardless of arity. -/
def collectBindAcc (outs : List String) (expr : ASTNode) : BindAcc :=
  match expr with
  | .tuple items =>
      (enumFrom 0 outs).foldl (collectTupleStep items)
        { outputs := [], output_deps := [], all_deps := [] }
  | _ =>
      outs.foldl (collectWholeStep expr) { outputs := [], output_deps := [], all_deps := [] }

/-- The GraphNode built for one InstanceBinding (collect_instances). -/
def collectBinding (name : String) (outs : List String) (expr : ASTNode) (env : Env) :
    GraphNode :=
  let acc := collectBindAcc outs expr
  { instance_name := name
    original_name := none
    node_type := checkNodeType expr env
    context := none
    outputs := acc.outputs
    deps := acc.all_deps
    output_deps := acc.output_deps
    required_outputs := []
    is_duplicate := false
    typed_by_child := none }

/-- collect_instances (render_graph.rs): one arena node per
InstanceBinding statement; node_indices.insert overwrites silently on a
duplicate name, leaving the earlier node in the arena unused. -/
def collectInstances (ast : Program) (env : Env) (st : RenderGraph) : RenderGraph :=
  ast.foldl
    (fun st stmt =>
      match stmt with
      | .instanceBinding name outs expr =>
          let idx := st.nodes.length
          { st with
            nodes := st.nodes ++ [collectBinding name outs expr env]
            nodeIndices := upsert st.nodeIndices name idx }
      | _ => st)
    st

/-- build_initial_edges (render_graph.rs): for each registered name, a
(dep, name) pair for every dep that is itself a registered instance; the
pairs are recorded in original_edges and added as Normal edges. -/
def buildInitialEdges (st : RenderGraph) : RenderGraph :=
  let edgesToAdd :=
    st.nodeIndices.foldl
      (fun acc ni =>
        let deps :=
          match st.nodes.get? ni.2 with
          | some n => n.deps
          | none => []
        deps.foldl
          (fun acc dep =>
            if (lookupKey st.nodeIndices dep).isSome then acc ++ [(dep, ni.1)] else acc)
          acc)
      []
  let st2 := { st with originalEdges := st.originalEdges ++ edgesToAdd }
  edgesToAdd.foldl
    (fun st cp =>
      match lookupKey st.nodeIndices cp.1, lookupKey st.nodeIndices cp.2 with
      | some childIdx, some parentIdx =>
          { st with edges := st.edges ++ [(childIdx, parentIdx, EdgeType.normal)] }
      | _, _ => st)
    st2

/-- type_node (render_graph.rs): set the context of the node registered
under `name`, when there is one. -/
def typeNode (st : RenderGraph) (name : String) (context : Context) : RenderGraph :=
  match lookupKey st.nodeIndices name with
  | some idx => setNodeCtx st idx context
  | none => st

mutual

/-- type_expr_as (render_graph.rs): assign `context` to every instance
referenced from an expression tree of a backend statement argument. -/
def typeExprAs (st : RenderGraph) (e : ASTNode) (context : Context) : RenderGraph :=
  match e with
  | .strandAccess base _ =>
      match base with
      | .var name => typeNode st name context
      | _ => st
  | .strandRemap base _ mappings =>
      let st2 :=
        match base with
        | .var name => typeNode st name context
        | _ => st
      typeExprAsMappings st2 mappings context
  | .binary _ l r => typeExprAs (typeExprAs st l context) r context
  | .unary _ x => typeExprAs st x context
  | .call _ args => typeExprAsList st args context
  | .ifE c t f => typeExprAs (typeExprAs (typeExprAs st c context) t context) f context
  | .tuple items => typeExprAsList st items context
  | .indexE b i => typeExprAs (typeExprAs st b context) i context
  | _ => st

/-- Argument-list walk for type_expr_as. -/
def typeExprAsList (st : RenderGraph) (es : List ASTNode) (context : Context) : RenderGraph :=
  match es with
  | [] => st
  | e :: rest => typeExprAsList (typeExprAs st e context) rest context

/-- Remap-mapping walk (right-hand sides) for type_expr_as. -/
def typeExprAsMappings (st : RenderGraph) (ms : List (ASTNode × ASTNode)) (context : Context) :
    RenderGraph :=
  match ms with
  | [] => st
  | m :: rest => typeExprAsMappings (typeExprAs st m.2 context) rest context

end

/-- extract_builtin_name (render_graph.rs): first Call expression among
the node's outputs whose callee is a Var (map values in insertion order). -/
def extractBuiltinName (node : GraphNode) : Option String :=
  node.outputs.foldl
    (fun acc ov =>
      match acc with
      | some n => some n
      | none =>
          match ov.2 with
          | .call callee _ =>
              match callee with
              | .var name => some name
              | _ => none
          | _ => none)
    none

/-- phase0_initial_typing (render_graph.rs): 0a types inherent builtins
from the builtin registry; 0b types every instance referenced from a
backend statement's positional arguments, erroring on an unknown backend
keyword. -/
def phase0InitialTyping (ast : Program) (st : RenderGraph) : Except String RenderGraph :=
  let st0a :=
    (List.range st.nodes.length).foldl
      (fun st idx =>
        match st.nodes.get? idx with
        | some node =>
            if node.node_type = NodeType.builtin then
              match extractBuiltinName node with
              | some builtinName =>
                  match getBuiltinContext builtinName with
                  | some context => setNodeCtx st idx context
                  | none => st
              | none => st
            else st
        | none => st)
      st
  ast.foldlM
    (fun st stmt =>
      match stmt with
      | .backendStmt keyword _ _ positionalArgs =>
          match getContext keyword with
          | none => .error ("Unknown backend: " ++ keyword)
          | some context =>
              .ok (positionalArgs.foldl (fun st arg => typeExprAs st arg context) st)
      | _ => .ok st)
    st0a

/-- Number of untyped arena nodes; the termination measure of the
phase-1 propagation loops. -/
def untypedCount (st : RenderGraph) : Nat :=
  st.nodes.countP (fun n => n.context.isNone)

/-- HashSet-of-contexts test: some c when the collected contexts are
nonempty and all equal (set cardinality one), as in dependent_contexts.len() == 1. -/
def uniqueCtx (l : List Context) : Option Context :=
  match l with
  | [] => none
  | c :: rest => if rest.all (fun x => x == c) then some c else none

/-- One bottom-up iteration of phase1 (render_graph.rs lines 281-305):
an untyped node with at least one dependent takes the unique context of
its typed dependents; untyped dependents are ignored by the filter_map. -/
def buStep (acc : RenderGraph × Bool) (i : Nat) : RenderGraph × Bool :=
  match (acc.1.nodes.get? i) with
  | none => acc
  | some n =>
      if n.context.isSome then acc
      else
        let dependents := outNeighbors acc.1 i
        if dependents.isEmpty then acc
        else
          match uniqueCtx (dependents.filterMap (fun j => ctxOf acc.1 j)) with
          | some c => (setNodeCtx acc.1 i c, true)
          | none => acc

/-- One top-down iteration of phase1 (render_graph.rs lines 315-339),
dual over incoming neighbors. -/
def tdStep (acc : RenderGraph × Bool) (i : Nat) : RenderGraph × Bool :=
  match (acc.1.nodes.get? i) with
  | none => acc
  | some n =>
      if n.context.isSome then acc
      else
        let dependencies := inNeighbors acc.1 i
        if dependencies.isEmpty then acc
        else
          match uniqueCtx (dependencies.filterMap (fun j => ctxOf acc.1 j)) with
          | some c => (setNodeCtx acc.1 i c, true)
          | none => acc

/-- One full bottom-up sweep over all node indices, with the changed flag. -/
def buPass (st : RenderGraph) : RenderGraph × Bool :=
  (List.range st.nodes.length).foldl buStep (st, false)

/-- One full top-down sweep over all node indices, with the changed flag. -/
def tdPass (st : RenderGraph) : RenderGraph × Bool :=
  (List.range st.nodes.length).foldl tdStep (st, false)

/-- Setting the context of an untyped node strictly decreases the count
of untyped nodes. -/
theorem countP_set_some_lt (l : List GraphNode) (i : Nat) (n : GraphNode)
    (h : l.get? i = some n) (hn : n.context = none) (c : Context) :
    (l.set i { n with context := some c }).countP (fun x => x.context.isNone) <
      l.countP (fun x => x.context.isNone) := by
  induction l generalizing i with
  | nil => simp at h
  | cons a t ih =>
      cases i with
      | zero =>
          simp only [List.get?] at h
          cases h
          simp [List.set, List.countP_cons, hn]
      | succ j =>
          simp only [List.get?] at h
          have := ih j h
          simp only [List.set, List.countP_cons]
          omega

/-- A bottom-up step either leaves the state unchanged or reports a
change and strictly decreases the untyped count. -/
theorem buStep_prop (acc : RenderGraph × Bool) (i : Nat) :
    buStep acc i = acc ∨
      ((buStep acc i).2 = true ∧ untypedCount (buStep acc i).1 < untypedCount acc.1) := by
  unfold buStep
  cases hg : acc.1.nodes.get? i with
  | none => left; rfl
  | some n =>
      by_cases hsome : n.context.isSome
      · simp [hsome]
      · simp only [hsome, if_false, Bool.false_eq_true]
        by_cases hemp : (outNeighbors acc.1 i).isEmpty
        · simp [hemp]
        · simp only [hemp, if_false, Bool.false_eq_true]
          cases hu : uniqueCtx ((outNeighbors acc.1 i).filterMap (fun j => ctxOf acc.1 j)) with
          | none => left; rfl
          | some c =>
              right
              refine ⟨rfl, ?_⟩
              have hn : n.context = none := by
                cases hc : n.context
                · rfl
                · rw [hc] at hsome; simp at hsome
              simp only [untypedCount, setNodeCtx, hg]
              exact countP_set_some_lt acc.1.nodes i n hg hn c

/-- Same property for a top-down step. -/
theorem tdStep_prop (acc : RenderGraph × Bool) (i : Nat) :
    tdStep acc i = acc ∨
      ((tdStep acc i).2 = true ∧ untypedCount (tdStep acc i).1 < untypedCount acc.1) := by
  unfold tdStep
  cases hg : acc.1.nodes.get? i with
  | none => left; rfl
  | some n =>
      by_cases hsome : n.context.isSome
      · simp [hsome]
      · simp only [hsome, if_false, Bool.false_eq_true]
        by_cases hemp : (inNeighbors acc.1 i).isEmpty
        · simp [hemp]
        · simp only [hemp, if_false, Bool.false_eq_true]
          cases hu : uniqueCtx ((inNeighbors acc.1 i).filterMap (fun j => ctxOf acc.1 j)) with
          | none => left; rfl
          | some c =>
              right
              refine ⟨rfl, ?_⟩
              have hn : n.context = none := by
                cases hc : n.context
                · rfl
                · rw [hc] at hsome; simp at hsome
              simp only [untypedCount, setNodeCtx, hg]
              exact countP_set_some_lt acc.1.nodes i n hg hn c

/-- Folding a step with the step property yields the same alternative:
unchanged, or changed with strictly smaller untyped count. -/
theorem foldl_step_prop (step : (RenderGraph × Bool) → Nat → (RenderGraph × Bool))
    (hstep : ∀ acc i, step acc i = acc ∨
      ((step acc i).2 = true ∧ untypedCount (step acc i).1 < untypedCount acc.1))
    (l : List Nat) (acc : RenderGraph × Bool) :
    l.foldl step acc = acc ∨
      ((l.foldl step acc).2 = true ∧
        untypedCount (l.foldl step acc).1 < untypedCount acc.1) := by
  induction l generalizing acc with
  | nil => left; rfl
  | cons i t ih =>
      simp only [List.foldl_cons]
      rcases hstep acc i with h | ⟨hb, hc⟩
      · rw [h]; exact ih acc
      · rcases ih (step acc i) with h2 | ⟨hb2, hc2⟩
        · rw [h2]; right; exact ⟨hb, hc⟩
        · right; exact ⟨hb2, lt_trans hc2 hc⟩

/-- A bottom-up sweep that reports a change strictly shrank the untyped count. -/
theorem buPass_dec (st : RenderGraph) (h : (buPass st).2 = true) :
    untypedCount (buPass st).1 < untypedCount st := by
  rcases foldl_step_prop buStep buStep_prop (List.range st.nodes.length) (st, false) with
    he | ⟨_, hc⟩
  · unfold buPass at h; rw [he] at h; simp at h
  · exact hc

/-- A top-down sweep that reports a change strictly shrank the untyped count. -/
theorem tdPass_dec (st : RenderGraph) (h : (tdPass st).2 = true) :
    untypedCount (tdPass st).1 < untypedCount st := by
  rcases foldl_step_prop tdStep tdStep_prop (List.range st.nodes.length) (st, false) with
    he | ⟨_, hc⟩
  · unfold tdPass at h; rw [he] at h; simp at h
  · exact hc

/-- A sweep that reports no change left the state untouched. -/
theorem foldl_step_same (step : (RenderGraph × Bool) → Nat → (RenderGraph × Bool))
    (hstep : ∀ acc i, step acc i = acc ∨
      ((step acc i).2 = true ∧ untypedCount (step acc i).1 < untypedCount acc.1))
    (l : List Nat) (st : RenderGraph) (h : (l.foldl step (st, false)).2 = false) :
    (l.foldl step (st, false)).1 = st := by
  rcases foldl_step_prop step hstep l (st, false) with he | ⟨hb, _⟩
  · rw [he]
  · rw [hb] at h; simp at h

/-- The while-changed loop shared by both phase1 passes
(render_graph.rs lines 276-306 and 310-340).  The fuel only bounds the
iteration count: a pass that reports a change strictly decreases the
untyped-node count, so untypedCount + 1 iterations always reach the
fixed point (passLoop_fix below). -/
def passLoop (pass : RenderGraph → RenderGraph × Bool) : Nat → RenderGraph → RenderGraph
  | 0, st => st
  | fuel + 1, st =>
      match pass st with
      | (st2, true) => passLoop pass fuel st2
      | (st2, false) => st2

/-- A phase1 pass iterated to its fixed point. -/
def runPass (pass : RenderGraph → RenderGraph × Bool) (st : RenderGraph) : RenderGraph :=
  passLoop pass (untypedCount st + 1) st

/-- phase1_type_propagation (render_graph.rs): the bottom-up pass runs
to its own fixed point, then the top-down pass runs to its own fixed
point; there is no outer loop around the two. -/
def phase1TypePropagation (st : RenderGraph) : RenderGraph :=
  runPass tdPass (runPass buPass st)

/-- With enough fuel the loop result is a fixed point of its own pass:
running the pass once more reports no change. -/
theorem passLoop_fix (pass : RenderGraph → RenderGraph × Bool)
    (hdec : ∀ st, (pass st).2 = true → untypedCount (pass st).1 < untypedCount st)
    (hsame : ∀ st, (pass st).2 = false → (pass st).1 = st) :
    ∀ (fuel : Nat) (st : RenderGraph), untypedCount st < fuel →
      pass (passLoop pass fuel st) = (passLoop pass fuel st, false) := by
  intro fuel
  induction fuel with
  | zero => intro st hlt; omega
  | succ fuel ih =>
      intro st hlt
      show pass (passLoop pass (fuel + 1) st) = (passLoop pass (fuel + 1) st, false)
      rw [passLoop]
      cases hp : pass st with
      | mk st2 changed =>
          cases changed with
          | true =>
              have hd := hdec st (by rw [hp])
              rw [hp] at hd
              have hd2 : untypedCount st2 < untypedCount st := hd
              exact ih st2 (by omega)
          | false =>
              have h1 : (pass st).1 = st := hsame st (by rw [hp])
              rw [hp] at h1
              have h2 : st2 = st := h1
              subst h2
              exact hp

/-- The bottom-up pass reports no change only when it leaves the state
untouched. -/
theorem buPass_same (st : RenderGraph) (h : (buPass st).2 = false) : (buPass st).1 = st :=
  foldl_step_same buStep buStep_prop (List.range st.nodes.length) st h

/-- The top-down pass reports no change only when it leaves the state
untouched. -/
theorem tdPass_same (st : RenderGraph) (h : (tdPass st).2 = false) : (tdPass st).1 = st :=
  foldl_step_same tdStep tdStep_prop (List.range st.nodes.length) st h

/-- Undirected neighbors of node i (neighbors_undirected), determinized
as outgoing then incoming in edge-list order. -/
def undirectedNeighbors (st : RenderGraph) (i : Nat) : List Nat :=
  outNeighbors st i ++ inNeighbors st i

/-- Insertion-ordered context-set insert. -/
def insertCtxSet (l : List Context) (c : Context) : List Context :=
  if c ∈ l then l else l ++ [c]

/-- The stack loop of find_untyped_component (render_graph.rs lines
398-415).  The fuel bounds the number of pops, which never exceeds the
number of pushes (at most one initial element plus the total undirected
degree of the visited nodes); callers pass 2*|edges| + |nodes| + 2. -/
def findComponentLoop (st : RenderGraph) (fuel : Nat) (stack visited component : List Nat) :
    List Nat × List Nat :=
  match fuel with
  | 0 => (component, visited)
  | fuel + 1 =>
      match stack with
      | [] => (component, visited)
      | i :: rest =>
          if i ∈ visited then findComponentLoop st fuel rest visited component
          else
            match st.nodes.get? i with
            | none => findComponentLoop st fuel rest visited component
            | some n =>
                if n.context.isSome then findComponentLoop st fuel rest visited component
                else
                  let visited2 := visited ++ [i]
                  let component2 := component ++ [i]
                  let stack2 :=
                    (undirectedNeighbors st i).foldl
                      (fun s j =>
                        if j ∉ visited2 ∧ (ctxOf st j).isNone ∧ (st.nodes.get? j).isSome then
                          j :: s
                        else s)
                      rest
                  findComponentLoop st fuel stack2 visited2 component2

/-- find_untyped_component (render_graph.rs): the connected untyped
component containing start (on the undirected view), the updated visited
set, and whether any component member has a typed dependency. -/
def findUntypedComponent (st : RenderGraph) (start : Nat) (visited : List Nat) :
    List Nat × List Nat × Bool :=
  let fuel := 2 * st.edges.length + st.nodes.length + 2
  let (component, visited2) := findComponentLoop st fuel [start] visited []
  let hasTypedDep :=
    component.any (fun i => (inNeighbors st i).any (fun j => (ctxOf st j).isSome))
  (component, visited2, hasTypedDep)

/-- find_component_target_contexts (render_graph.rs): the contexts of
the typed dependents of a component, as an insertion-ordered set. -/
def findComponentTargetContexts (st : RenderGraph) (component : List Nat) : List Context :=
  component.foldl
    (fun ctxs i =>
      (outNeighbors st i).foldl
        (fun ctxs j =>
          match ctxOf st j with
          | some c => insertCtxSet ctxs c
          | none => ctxs)
        ctxs)
    []

/-- pick_context (render_graph.rs): the context of the first typed
dependency found, else the highest-priority target context, else Compute. -/
def pickContext (st : RenderGraph) (component : List Nat) (targets : List Context) : Context :=
  match component.findSome? (fun i => (inNeighbors st i).findSome? (fun j => ctxOf st j)) with
  | some c => c
  | none =>
      match targets with
      | [] => Context.compute
      | t :: rest => rest.foldl (fun best c => if c.priority < best.priority then c else best) t

/-- create_duplicates (render_graph.rs): rebuild the arena from
node_indices, replacing each name marked in duplicate_into by one clone
per target context named orig$ctx; nodes absent from node_indices are
dropped; all edges are discarded. -/
def createDuplicates (st : RenderGraph) : RenderGraph :=
  let rebuilt :=
    st.nodeIndices.foldl
      (fun (acc : List GraphNode × List (String × Nat)) ni =>
        match st.nodes.get? ni.2 with
        | none => acc
        | some oldNode =>
            match lookupKey st.duplicateInto ni.1 with
            | some contexts =>
                contexts.foldl
                  (fun acc context =>
                    let newName := ni.1 ++ "$" ++ context.lowerName
                    let newNode :=
                      { oldNode with
                        instance_name := newName
                        original_name := some ni.1
                        context := some context
                        is_duplicate := true }
                    (acc.1 ++ [newNode], upsert acc.2 newName acc.1.length))
                  acc
            | none => (acc.1 ++ [oldNode], upsert acc.2 ni.1 acc.1.length))
      ([], [])
  { st with nodes := rebuilt.1, nodeIndices := rebuilt.2, edges := [] }

/-- phase2_find_and_process_untyped_components (render_graph.rs): walk
the untyped components; a component with a typed dependency is assigned
pick_context's choice, a component with several target contexts is
marked for duplication, one with a single target context is assigned it,
and an isolated component is left untyped; then duplicates are created. -/
def phase2Untyped (st : RenderGraph) : RenderGraph :=
  let untypedNodes := (List.range st.nodes.length).filter (fun i => (ctxOf st i).isNone)
  let processed :=
    untypedNodes.foldl
      (fun (p : RenderGraph × List Nat) start =>
        if start ∈ p.2 then p
        else
          let fc := findUntypedComponent p.1 start p.2
          let component := fc.1
          let visited2 := fc.2.1
          let hasTypedDep := fc.2.2
          let targets := findComponentTargetContexts p.1 component
          if hasTypedDep then
            let chosen := pickContext p.1 component targets
            (component.foldl (fun st i => setNodeCtx st i chosen) p.1, visited2)
          else if targets.length > 1 then
            ({ p.1 with
               duplicateInto :=
                 component.foldl
                   (fun di i =>
                     match p.1.nodes.get? i with
                     | some n => upsert di n.instance_name targets
                     | none => di)
                   p.1.duplicateInto },
             visited2)
          else if targets.length = 1 then
            match targets.head? with
            | some context =>
                (component.foldl (fun st i => setNodeCtx st i context) p.1, visited2)
            | none => (p.1, visited2)
          else (p.1, visited2))
      (st, [])
  createDuplicates processed.1

/-- get_concrete_nodes (render_graph.rs): the arena indices realizing an
original name - its per-context clones if duplicated, else itself. -/
def getConcreteNodes (st : RenderGraph) (originalName : String) : List Nat :=
  match lookupKey st.duplicateInto originalName with
  | some contexts =>
      contexts.filterMap
        (fun ctx => lookupKey st.nodeIndices (originalName ++ "$" ++ ctx.lowerName))
  | none =>
      match lookupKey st.nodeIndices originalName with
      | some i => [i]
      | none => []

/-- The edges phase3 adds for one original (child, parent) pair
(render_graph.rs lines 509-551): duplicated pairs are wired clone to
clone per shared context with a Normal label; otherwise every concrete
child/parent pair is wired unless exactly one side was duplicated and
the contexts differ, with the label computed by add_edge. -/
def edgesForPair (st : RenderGraph) (childName parentName : String) :
    List (Nat × Nat × EdgeType) :=
  if (lookupKey st.duplicateInto childName).isSome ∧
      (lookupKey st.duplicateInto parentName).isSome then
    ((lookupKey st.duplicateInto childName).getD []).filterMap
      (fun context =>
        match lookupKey st.nodeIndices (childName ++ "$" ++ context.lowerName),
            lookupKey st.nodeIndices (parentName ++ "$" ++ context.lowerName) with
        | some childIdx, some parentIdx => some (childIdx, parentIdx, EdgeType.normal)
        | _, _ => none)
  else
    (getConcreteNodes st childName).foldl
      (fun acc childIdx =>
        acc ++
          ((getConcreteNodes st parentName).filterMap
            (fun parentIdx =>
              if ((lookupKey st.duplicateInto childName).isSome ∨
                    (lookupKey st.duplicateInto parentName).isSome) ∧
                  ¬ ctxOf st childIdx = ctxOf st parentIdx then none
              else
                some (childIdx, parentIdx,
                  if ctxOf st childIdx = ctxOf st parentIdx then EdgeType.normal
                  else EdgeType.reference))))
      []

/-- phase3_build_typed_edges (render_graph.rs): clear all edges and
rebuild them from the recorded original (child, parent) pairs. -/
def phase3BuildTypedEdges (st : RenderGraph) : RenderGraph :=
  { st with
    edges := st.originalEdges.foldl (fun acc cp => acc ++ edgesForPair st cp.1 cp.2) [] }

/-- Per-context slice of the graph (render_graph.rs Subgraph): cloned
nodes, Normal edges over local indices, names, and a topological order. -/
structure Subgraph where
  context : Context
  nodes : List GraphNode
  edges : List (Nat × Nat)
  node_names : List String
  execution_order : List String
deriving Repr

/-- Cross-context handoff (render_graph.rs Reference): from_node in
from_context consumes data of to_node in to_context. -/
structure Reference where
  from_context : Context
  from_node : String
  to_context : Context
  to_node : String
deriving DecidableEq, Repr

/-- The executable plan (render_graph.rs MetaGraph); context_dag edges
are over positions in the subgraph key list. -/
structure MetaGraph where
  subgraphs : List (Context × Subgraph)
  context_dag : List (Nat × Nat)
  execution_order : List Context
  references : List Reference
deriving Repr

/-- Topological sort in the style of petgraph::algo::toposort: None on a
cycle (including self-loops), else an order; determinized by always
taking the first ready node.  The fuel only bounds the iteration count:
each round erases one found element, so the initial list length always
suffices. -/
def kahnLoop (edges : List (Nat × Nat)) : Nat → List Nat → Option (List Nat)
  | _, [] => some []
  | 0, _ :: _ => none
  | fuel + 1, r :: rest =>
      match (r :: rest).find?
          (fun i => ! edges.any (fun e => e.2 == i && (r :: rest).contains e.1)) with
      | none => none
      | some i => (kahnLoop edges fuel ((r :: rest).erase i)).map (fun l => i :: l)

/-- Topological sort entry point with sufficient fuel. -/
def kahnSort (edges : List (Nat × Nat)) (l : List Nat) : Option (List Nat) :=
  kahnLoop edges l.length l

/-- Append x to the group of ctx, creating the group at the end on first
use (entry(context).or_default().push(idx)). -/
def pushGroup (acc : List (Context × List (Nat × GraphNode))) (ctx : Context)
    (x : Nat × GraphNode) : List (Context × List (Nat × GraphNode)) :=
  match acc with
  | [] => [(ctx, [x])]
  | (c, g) :: rest =>
      if c = ctx then (c, g ++ [x]) :: rest else (c, g) :: pushGroup rest ctx x

/-- Typed arena nodes grouped by context in insertion order
(extract_subgraphs first loop); untyped nodes are dropped. -/
def nodesByContext (nodes : List GraphNode) : List (Context × List (Nat × GraphNode)) :=
  (enumFrom 0 nodes).foldl
    (fun acc p =>
      match p.2.context with
      | some ctx => pushGroup acc ctx p
      | none => acc)
    []

/-- old_to_new: position of arena index old inside a context group. -/
def oldToNew (group : List (Nat × GraphNode)) (old : Nat) : Option Nat :=
  match group with
  | [] => none
  | p :: rest => if p.1 = old then some 0 else (oldToNew rest old).map (· + 1)

/-- The Normal edges (as local index pairs) and outgoing References of
one context group (extract_subgraphs second loop); Reference edges whose
target is untyped are dropped as dead code. -/
def groupRefsEdges (st : RenderGraph) (context : Context) (group : List (Nat × GraphNode)) :
    List (Nat × Nat) × List Reference :=
  group.foldl
    (fun acc p =>
      (st.edges.filter (fun e => e.1 == p.1)).foldl
        (fun acc e =>
          match e.2.2 with
          | .normal =>
              match oldToNew group e.1, oldToNew group e.2.1 with
              | some s, some t => (acc.1 ++ [(s, t)], acc.2)
              | _, _ => acc
          | .reference =>
              match st.nodes.get? e.2.1 with
              | some toNode =>
                  match toNode.context with
                  | some toContext =>
                      (acc.1,
                       acc.2 ++
                         [{ from_context := toContext
                            from_node := toNode.instance_name
                            to_context := context
                            to_node := p.2.instance_name }])
                  | none => acc
              | none => acc)
        acc)
    ([], [])

/-- The per-context body of extract_subgraphs: build the Subgraph for
one context group and append its references, or fail on a subgraph
cycle. -/
def extractStep (st : RenderGraph) (acc : List (Context × Subgraph) × List Reference)
    (cg : Context × List (Nat × GraphNode)) :
    Except String (List (Context × Subgraph) × List Reference) :=
  let re := groupRefsEdges st cg.1 cg.2
  let subNodes := cg.2.map (·.2)
  match kahnSort re.1 (List.range subNodes.length) with
  | none => .error ("Cycle in " ++ cg.1.name ++ " subgraph")
  | some order =>
      .ok (acc.1 ++
            [(cg.1,
              { context := cg.1
                nodes := subNodes
                edges := re.1
                node_names := subNodes.map (·.instance_name)
                execution_order :=
                  order.filterMap (fun i => (subNodes.get? i).map (·.instance_name)) })],
          acc.2 ++ re.2)

/-- extract_subgraphs (render_graph.rs): one Subgraph per context with a
topological execution order ("Cycle in <ctx> subgraph" on failure), plus
all References. -/
def extractSubgraphs (st : RenderGraph) :
    Except String (List (Context × Subgraph) × List Reference) :=
  (nodesByContext st.nodes).foldlM (extractStep st) ([], [])

/-- Membership test of the reference edge map (edge_map.contains_key). -/
def hasRefEdge (references : List Reference) (a b : Context) : Bool :=
  references.any (fun r => r.from_context == a && r.to_context == b)

/-- Position of a context in the subgraph key list (ctx_to_idx). -/
def idxOfCtx (l : List Context) (c : Context) : Nat :=
  match l with
  | [] => 0
  | x :: rest => if x = c then 0 else idxOfCtx rest c + 1

/-- build_context_dag (render_graph.rs lines 680-738): one DAG node per
subgraph context; for each reference an edge provider -> dependent,
except that while the reverse direction exists in the map and has not
itself been added, the edge whose provider has the lower priority is
skipped; finally a toposort that reports "Circular dependency between
contexts" on a cycle.  The result depends on the order of `references`,
which in Rust comes from unordered HashMap iteration. -/
def buildContextDag (subgraphs : List (Context × Subgraph)) (references : List Reference) :
    Except String (List (Nat × Nat) × List Context) :=
  let ctxs := subgraphs.map (·.1)
  let final :=
    references.foldl
      (fun (acc : List (Nat × Nat) × List (Context × Context)) r =>
        let edge := (r.from_context, r.to_context)
        let reverseEdge := (r.to_context, r.from_context)
        if edge ∈ acc.2 then acc
        else if hasRefEdge references reverseEdge.1 reverseEdge.2 ∧ reverseEdge ∉ acc.2 ∧
            r.to_context.ordinal > r.from_context.ordinal then acc
        else
          (acc.1 ++ [(idxOfCtx ctxs r.to_context, idxOfCtx ctxs r.from_context)],
           acc.2 ++ [edge]))
      ([], [])
  match kahnSort final.1 (List.range ctxs.length) with
  | none => .error "Circular dependency between contexts"
  | some order => .ok (final.1, order.filterMap (fun i => ctxs.get? i))

/-- build_meta_graph (render_graph.rs). -/
def buildMetaGraph (st : RenderGraph) : Except String MetaGraph :=
  match extractSubgraphs st with
  | .error e => .error e
  | .ok sr =>
      match buildContextDag sr.1 sr.2 with
      | .error e => .error e
      | .ok de =>
          .ok { subgraphs := sr.1
                context_dag := de.1
                execution_order := de.2
                references := sr.2 }

/-- RenderGraph::build (render_graph.rs): the full pipeline from program
to MetaGraph.  collect, initial edges, phases 0-3, meta-graph. -/
def build (ast : Program) (env : Env) : Except String MetaGraph :=
  let st := collectInstances ast env RenderGraph.empty
  let st := buildInitialEdges st
  match phase0InitialTyping ast st with
  | .error e => .error e
  | .ok st1 =>
      let st2 := phase1TypePropagation st1
      let st3 := phase2Untyped st2
      let st4 := phase3BuildTypedEdges st3
      buildMetaGraph st4

/-- Kind of a backend-owned opaque handle (backend/types.rs HandleType). -/
inductive HandleType where
  | buffer
  | texture
  | sampler
deriving DecidableEq, Repr

/-- Backend-owned opaque handle (backend/types.rs OutputHandle); the Any
payload is modelled as an opaque numeric identifier. -/
structure OutputHandle where
  inner : Nat
  handle_type : HandleType
deriving DecidableEq, Repr

/-- Registry entry (output_registry.rs OutputLocation); the Rust field
`instance` is a reserved word in Lean and is embedded as instance_name. -/
structure OutputLocation where
  instance_name : String
  output : String
  backend_index : Nat
  handle : OutputHandle
deriving DecidableEq, Repr

/-- output_registry.rs OutputRegistry: a map keyed by the string
instance ++ "." ++ output. -/
structure OutputRegistry where
  outputs : List (String × OutputLocation)
deriving DecidableEq, Repr

def OutputRegistry.new : OutputRegistry := { outputs := [] }

/-- OutputRegistry::register: last-write-wins insert under the
concatenated key. -/
def OutputRegistry.register (r : OutputRegistry) (inst output : String)
    (handle : OutputHandle) (backendIndex : Nat) : OutputRegistry :=
  { outputs :=
      upsert r.outputs (inst ++ "." ++ output)
        { instance_name := inst, output := output, backend_index := backendIndex,
          handle := handle } }

/-- OutputRegistry::get: entry under the concatenated key, or a Runtime
error naming the pair. -/
def OutputRegistry.get (r : OutputRegistry) (inst output : String) :
    Except String OutputLocation :=
  match lookupKey r.outputs (inst ++ "." ++ output) with
  | some location => .ok location
  | none => .error ("Output not found: " ++ inst ++ "." ++ output)

/-- The face of a backend the Coordinator consumes (backend/types.rs
trait Backend, as used by coordinator.rs): a context string, fallible
handle and per-coordinate value access, and the outcome of one execute
call.  Coordinate maps and f64 values are passed through untouched by
the Coordinator, so values are modelled as integers. -/
structure CoordBackend where
  context : String
  get_handle : String → String → Except String OutputHandle
  get_value_at : String → String → List (String × Int) → Except String Int
  execute_result : Except String Unit

/-- What Coordinator::lookup hands back (backend/types.rs
DataReference): a typed handle payload, or a lazy per-coordinate getter. -/
inductive DataReference where
  | metalBuffer (inner : Nat)
  | metalTexture (inner : Nat)
  | valueGetter (getter : List (String × Int) → Int)

/-- The Coordinator state the verified operations touch
(coordinator.rs): the ordered backend list, the output registry and the
running flag.  The ast / env / graph fields and the compile machinery
call into external backends and are outside this embedding. -/
structure Coordinator where
  backends : List CoordBackend
  outputs : OutputRegistry
  running : Bool

def Coordinator.new : Coordinator :=
  { backends := [], outputs := OutputRegistry.new, running := false }

/-- Coordinator::add_backend (coordinator.rs lines 39-41): an
unconditional append with no duplicate-context check and no error
channel. -/
def Coordinator.addBackend (c : Coordinator) (backend : CoordBackend) : Coordinator :=
  { c with backends := c.backends ++ [backend] }

/-- Coordinator::expose (coordinator.rs lines 43-51): last-write-wins
registration. -/
def Coordinator.expose (c : Coordinator) (inst output : String) (handle : OutputHandle)
    (backendIdx : Nat) : Coordinator :=
  { c with outputs := c.outputs.register inst output handle backendIdx }

/-- Coordinator::lookup (coordinator.rs lines 53-92).  The outer Option
models control flow the Rust function does not survive: none is the
panic of indexing self.backends out of range.  Some (error _) is a
returned Runtime error; the ValueGetter branch wraps get_value_at and
maps evaluation errors to 0 (unwrap_or(0.0)). -/
def Coordinator.lookup (c : Coordinator) (inst output : String) :
    Option (Except String DataReference) :=
  match c.outputs.get inst output with
  | .error e => some (.error e)
  | .ok location =>
      match c.backends.get? location.backend_index with
      | none => none
      | some owner =>
          match owner.get_handle inst output with
          | .ok handle =>
              match handle.handle_type with
              | .buffer => some (.ok (.metalBuffer handle.inner))
              | .texture => some (.ok (.metalTexture handle.inner))
              | .sampler =>
                  some (.error "Sampler handles cannot be used as data references")
          | .error _ =>
              some (.ok (.valueGetter (fun coords =>
                match owner.get_value_at inst output coords with
                | .ok v => v
                | .error _ => 0)))

/-- The backend sweep of Coordinator::execute (coordinator.rs lines
205-207): each backend's execute is invoked in registration-list order;
the observable result is the sequence of backend contexts invoked, with
the first backend error propagated. -/
def runBackends : List CoordBackend → Except String (List String)
  | [] => .ok []
  | b :: rest =>
      match b.execute_result with
      | .error e => .error e
      | .ok _ =>
          match runBackends rest with
          | .error e => .error e
          | .ok l => .ok (b.context :: l)

/-- Coordinator::execute (coordinator.rs lines 192-210): fails when not
running, otherwise sweeps self.backends in registration order.  The env
clock refresh touches wall-clock time and is not modelled; the returned
list records which backend contexts ran and in which order. -/
def Coordinator.executeTick (c : Coordinator) : Except String (List String) :=
  if c.running = false then .error "Cannot execute: program not compiled yet"
  else runBackends c.backends

/-- context_to_str (coordinator.rs lines 213-219). -/
def contextToStr (context : Context) : String :=
  match context with
  | .visual => "visual"
  | .audio => "audio"
  | .compute => "compute"

/-- Coordinator::find_backend_for_context (coordinator.rs lines
154-167): index of the first backend whose context string matches, else
a Runtime error naming the context. -/
def findBackendForContext (c : Coordinator) (context : Context) : Except String Nat :=
  match (enumFrom 0 c.backends).find? (fun p => p.2.context == contextToStr context) with
  | some p => .ok p.1
  | none => .error ("No backend found for context: " ++ context.name)

/-! Concrete fixtures: the literal scenario programs of the spec and
small graph states used to evaluate the pipeline at specific inputs. -/

/-- Strand access helper: base@out with Var base and Var out. -/
def strandA (base out : String) : ASTNode := .strandAccess (.var base) (.var out)

/-- Instance binding statement helper. -/
def instBind (name : String) (outs : List String) (e : ASTNode) : ASTNode :=
  .instanceBinding name outs e

/-- Backend statement helper with positional arguments only. -/
def backendCall (keyword : String) (args : List ASTNode) : ASTNode :=
  .backendStmt keyword [] [] args

/-- An environment with no user spindles. -/
def emptyEnv : Env := { spindles := [] }

/-- Scenario S4: a1<f>=440; v<c>=a1@f; a2<m>=v@c; play(a1@f);
display(v@c); play(a2@m). -/
def s4Program : Program :=
  [instBind "a1" ["f"] (.num 440),
   instBind "v" ["c"] (strandA "a1" "f"),
   instBind "a2" ["m"] (strandA "v" "c"),
   backendCall "play" [strandA "a1" "f"],
   backendCall "display" [strandA "v" "c"],
   backendCall "play" [strandA "a2" "m"]]

/-- Scenario S5: a<x>=b@y; b<y>=a@x; display(a@x). -/
def s5Program : Program :=
  [instBind "a" ["x"] (strandA "b" "y"),
   instBind "b" ["y"] (strandA "a" "x"),
   backendCall "display" [strandA "a" "x"]]

/-- Scenario S3: vd<b>=0.5; ao<t>=vd@b; display(vd@b); play(ao@t)
(the numeric literal is opaque to the core). -/
def s3Program : Program :=
  [instBind "vd" ["b"] (.num 5),
   instBind "ao" ["t"] (strandA "vd" "b"),
   backendCall "display" [strandA "vd" "b"],
   backendCall "play" [strandA "ao" "t"]]

/-- A program binding the same instance name twice. -/
def dupNameProgram : Program :=
  [instBind "a" ["x"] (.num 1),
   instBind "a" ["y"] (.num 2),
   backendCall "display" [strandA "a" "x"]]

/-- A bare expression node fixture with a chosen context. -/
def mkPlainNode (name : String) (c : Option Context) : GraphNode :=
  { instance_name := name, original_name := none, node_type := .expression, context := c,
    outputs := [], deps := [], output_deps := [], required_outputs := [],
    is_duplicate := false, typed_by_child := none }

/-- Post-phase0 graph state in which phase1 leaves work behind: s is
typed Visual, d consumes s and u, u is only consumed by d. -/
def c2Graph : RenderGraph :=
  { nodes := [mkPlainNode "s" (some .visual), mkPlainNode "d" none, mkPlainNode "u" none],
    edges := [(0, 1, .normal), (2, 1, .normal)],
    nodeIndices := [("s", 0), ("d", 1), ("u", 2)],
    duplicateInto := [],
    originalEdges := [("s", "d"), ("u", "d")] }

/-- An empty subgraph carcass for a context (build_context_dag only
reads the keys). -/
def emptySubgraph (c : Context) : Subgraph :=
  { context := c, nodes := [], edges := [], node_names := [], execution_order := [] }

/-- The S4 subgraph key list in the order Audio, Visual. -/
def s4SubgraphKeys : List (Context × Subgraph) :=
  [(.audio, emptySubgraph .audio), (.visual, emptySubgraph .visual)]

/-- The S4 reference in which Audio provides: v (Visual) consumes a1 (Audio). -/
def s4RefProviderAudio : Reference :=
  { from_context := .visual, from_node := "v", to_context := .audio, to_node := "a1" }

/-- The S4 reference in which Visual provides: a2 (Audio) consumes v (Visual). -/
def s4RefProviderVisual : Reference :=
  { from_context := .audio, from_node := "a2", to_context := .visual, to_node := "v" }

/-! Claim theorems. -/

/-- C1.  Evaluation of build_context_dag at the S4 references in both
possible examination orders: when the Audio-provides reference is
examined first the lower-priority edge is dropped and the context order
is Visual before Audio, but when the Visual-provides reference is
examined first the skip condition (which requires the reverse edge not
to have been added yet) does not fire on the second reference, both
directed edges enter the context DAG, and the toposort fails with
"Circular dependency between contexts".  The reference order comes from
unordered HashMap iteration, so the S4 compile succeeds or fails by
chance, contradicting the claim (and the repository's own
test_audio_visual_audio_chain).  The third conjunct shows the full
pipeline under this embedding's determinization (Audio group first)
reaching execution order Visual, Audio. -/
theorem c1_context_dag_order_dependent :
    buildContextDag s4SubgraphKeys [s4RefProviderAudio, s4RefProviderVisual]
        = .ok ([(1, 0)], [Context.visual, Context.audio]) ∧
    buildContextDag s4SubgraphKeys [s4RefProviderVisual, s4RefProviderAudio]
        = .error "Circular dependency between contexts" ∧
    (build s4Program emptyEnv).map (fun m => m.execution_order)
        = .ok [Context.visual, Context.audio] :=
  ⟨rfl, rfl, rfl⟩

/-- C2 counterexample.  After phase1_type_propagation returns on
c2Graph, node u (index 2) is still untyped while its dependents are
exactly node d (index 1), typed Visual - so the bottom-up rule is
applicable to a remaining untyped node (and indeed one more bottom-up
sweep reports a change), contradicting the claim that on return neither
rule is applicable. -/
theorem c2_counterexample :
    (phase1TypePropagation c2Graph).nodes.map (fun n => n.context)
        = [some Context.visual, some Context.visual, none] ∧
    outNeighbors (phase1TypePropagation c2Graph) 2 = [1] ∧
    ctxOf (phase1TypePropagation c2Graph) 1 = some Context.visual ∧
    (buPass (phase1TypePropagation c2Graph)).2 = true :=
  ⟨rfl, rfl, rfl, rfl⟩

/-- C2 (amended).  Phase 1 is the bottom-up pass iterated to its own
fixed point followed by the top-down pass iterated to its own fixed
point, with no outer loop: on return the top-down rule admits no
further assignment (one more top-down sweep reports no change), while a
bottom-up opportunity can remain (see the counterexample).  Each pass
assigns an untyped node the unique context among its typed neighbors,
ignoring untyped neighbors. -/
theorem c2_phase1_two_fixed_point_passes (st : RenderGraph) :
    buPass (runPass buPass st) = (runPass buPass st, false) ∧
    tdPass (phase1TypePropagation st) = (phase1TypePropagation st, false) :=
  ⟨passLoop_fix buPass buPass_dec buPass_same (untypedCount st + 1) st (by omega),
   passLoop_fix tdPass tdPass_dec tdPass_same
     (untypedCount (runPass buPass st) + 1) (runPass buPass st) (by omega)⟩

/-- C3 counterexample.  Building the graph for a program that binds the
instance name "a" twice succeeds: no duplicate-name error is raised
anywhere in RenderGraph::build. -/
theorem c3_counterexample :
    (build dupNameProgram emptyEnv).toOption.isSome = true :=
  rfl

/-- C3 (amended).  A duplicate instance name is not a compile error:
node_indices.insert silently overwrites, the earlier arena node is
dropped when create_duplicates rebuilds the arena from node_indices,
and build returns a MetaGraph whose single Visual node carries the
second binding's outputs. -/
theorem c3_duplicate_name_last_binding_wins :
    (build dupNameProgram emptyEnv).toOption.map
        (fun m => m.subgraphs.map
          (fun p => (p.1, p.2.nodes.map (fun n => (n.instance_name, n.outputs)))))
      = some [(Context.visual, [("a", [("y", ASTNode.num 2)])])] :=
  rfl

/-- C4 counterexample.  The S5 instance-level cycle is rejected with the
message "Cycle in Visual subgraph", which does not contain the phrase
"circular dependency" (in either capitalization - it does not even
contain "ircular"). -/
theorem c4_counterexample :
    build s5Program emptyEnv = .error "Cycle in Visual subgraph" ∧
    ¬ List.IsInfix "ircular dependency".toList "Cycle in Visual subgraph".toList :=
  ⟨rfl, by decide⟩

/-- C4 (amended).  Compilation of S5 does fail, but inside
extract_subgraphs: the cycle survives typing into the Visual subgraph
and its toposort failure is reported as "Cycle in Visual subgraph"; the
message "Circular dependency between contexts" is reserved for
context-level cycles in build_context_dag. -/
theorem c4_cycle_error_names_subgraph :
    build s5Program emptyEnv = .error ("Cycle in " ++ Context.visual.name ++ " subgraph") :=
  rfl

/-- C10.  The registry key is the concatenation instance ++ "." ++
strand, so the distinct pairs ("a.b", "c") and ("a", "b.c") share the
key "a.b.c": exposing the second pair overwrites the first pair's
entry, and a subsequent lookup of either pair returns the same,
last-written registration. -/
theorem c10_registry_key_collision :
    ("a.b" ++ "." ++ "c" : String) = ("a" ++ "." ++ "b.c") ∧
    (("a.b", "c") : String × String) ≠ ("a", "b.c") ∧
    ((Coordinator.new.expose "a.b" "c" ⟨7, .buffer⟩ 0).expose "a" "b.c" ⟨8, .buffer⟩ 1).outputs.get
        "a.b" "c" = .ok ⟨"a", "b.c", 1, ⟨8, .buffer⟩⟩ ∧
    ((Coordinator.new.expose "a.b" "c" ⟨7, .buffer⟩ 0).expose "a" "b.c" ⟨8, .buffer⟩ 1).outputs.get
        "a" "b.c" = .ok ⟨"a", "b.c", 1, ⟨8, .buffer⟩⟩ :=
  ⟨rfl, by decide, rfl, rfl⟩

/-- A plain CPU-style backend fixture that never offers handles,
evaluates every coordinate to 0, and executes successfully. -/
def trivialBackend (ctxStr : String) : CoordBackend :=
  { context := ctxStr
    get_handle := fun _ _ => .error "Backend does not support handle access"
    get_value_at := fun _ _ _ => .ok 0
    execute_result := .ok () }

/-- A coordinator whose registry entry names backend index 1 while the
backend list is empty. -/
def c6BadCoordinator : Coordinator :=
  { backends := []
    outputs := OutputRegistry.new.register "x" "y" ⟨0, .buffer⟩ 1
    running := true }

/-- A running coordinator whose backends were registered Audio first. -/
def c7Coordinator : Coordinator :=
  { backends := [trivialBackend "audio", trivialBackend "visual"]
    outputs := OutputRegistry.new
    running := true }

/-- C6 counterexample.  With a registry entry whose backend index (1) is
out of range of the backend list (empty), lookup does not return a
Runtime error: self.backends[backend_idx] panics, modelled as none. -/
theorem c6_counterexample :
    c6BadCoordinator.lookup "x" "y" = none :=
  rfl

/-- C6 (amended).  Coordinator::lookup returns a Runtime error for a
registry miss and for a Sampler handle, and falls back to a ValueGetter
that yields 0 whenever get_value_at errors - but an out-of-range
backend index is an uncontrolled index panic (modelled none), not a
Runtime error. -/
theorem c6_lookup_spec (c : Coordinator) (inst output : String) :
    (lookupKey c.outputs.outputs (inst ++ "." ++ output) = none →
      c.lookup inst output =
        some (.error ("Output not found: " ++ inst ++ "." ++ output))) ∧
    (∀ location, lookupKey c.outputs.outputs (inst ++ "." ++ output) = some location →
      c.backends.get? location.backend_index = none →
      c.lookup inst output = none) ∧
    (∀ location owner handle,
      lookupKey c.outputs.outputs (inst ++ "." ++ output) = some location →
      c.backends.get? location.backend_index = some owner →
      owner.get_handle inst output = .ok handle →
      handle.handle_type = .sampler →
      c.lookup inst output =
        some (.error "Sampler handles cannot be used as data references")) ∧
    (∀ location owner e,
      lookupKey c.outputs.outputs (inst ++ "." ++ output) = some location →
      c.backends.get? location.backend_index = some owner →
      owner.get_handle inst output = .error e →
      c.lookup inst output =
        some (.ok (.valueGetter (fun coords =>
          match owner.get_value_at inst output coords with
          | .ok v => v
          | .error _ => 0))) ∧
      ∀ coords msg, owner.get_value_at inst output coords = .error msg →
        (match owner.get_value_at inst output coords with
         | .ok v => v
         | .error _ => 0) = 0) := by
  refine ⟨?_, ?_, ?_, ?_⟩
  · intro h
    simp [Coordinator.lookup, OutputRegistry.get, h]
  · intro location h1 h2
    rw [List.get?_eq_getElem?] at h2
    simp [Coordinator.lookup, OutputRegistry.get, h1, h2]
  · intro location owner handle h1 h2 h3 h4
    rw [List.get?_eq_getElem?] at h2
    simp [Coordinator.lookup, OutputRegistry.get, h1, h2, h3, h4]
  · intro location owner e h1 h2 h3
    constructor
    · rw [List.get?_eq_getElem?] at h2
      simp [Coordinator.lookup, OutputRegistry.get, h1, h2, h3]
    · intro coords msg h4
      rw [h4]

/-- C6 witness: the registry-miss branch of c6_lookup_spec at a fresh
coordinator. -/
theorem c6_witness :
    lookupKey Coordinator.new.outputs.outputs ("i" ++ "." ++ "s") = none ∧
    Coordinator.new.lookup "i" "s" =
      some (.error ("Output not found: " ++ "i" ++ "." ++ "s")) :=
  ⟨rfl, (c6_lookup_spec Coordinator.new "i" "s").1 rfl⟩

/-- C7 counterexample.  For the compiled S3 program the meta-graph's
context execution order is Visual then Audio, yet a running coordinator
whose backends were registered Audio first drives them Audio first:
Coordinator::execute iterates self.backends and never consults the
execution order. -/
theorem c7_counterexample :
    (build s3Program emptyEnv).map (fun m => m.execution_order)
        = .ok [Context.visual, Context.audio] ∧
    c7Coordinator.executeTick = .ok ["audio", "visual"] ∧
    ["audio", "visual"] ≠ [Context.visual, Context.audio].map contextToStr :=
  ⟨rfl, rfl, by decide⟩

/-- Every backend succeeding makes the sweep return the contexts in
registration-list order. -/
theorem runBackends_all_ok (bs : List CoordBackend)
    (h : ∀ b ∈ bs, b.execute_result = .ok ()) :
    runBackends bs = .ok (bs.map (fun b => b.context)) := by
  induction bs with
  | nil => rfl
  | cons b rest ih =>
      have hb : b.execute_result = .ok () := h b (by simp)
      have hr := ih (fun x hx => h x (by simp [hx]))
      simp [runBackends, hb, hr]

/-- C7 (amended).  Coordinator::execute fails exactly when the running
flag is unset; when running and every backend succeeds, the backends
are driven in registration order (the meta execution order plays no
role at execute time). -/
theorem c7_execute_spec (c : Coordinator) :
    (c.running = false → c.executeTick = .error "Cannot execute: program not compiled yet") ∧
    (c.running = true → (∀ b ∈ c.backends, b.execute_result = .ok ()) →
      c.executeTick = .ok (c.backends.map (fun b => b.context))) := by
  constructor
  · intro h
    simp [Coordinator.executeTick, h]
  · intro hr hall
    simp [Coordinator.executeTick, hr, runBackends_all_ok c.backends hall]

/-- C7 witness: the running branch of c7_execute_spec at the concrete
Audio-first coordinator. -/
theorem c7_witness :
    c7Coordinator.running = true ∧
    c7Coordinator.executeTick = .ok (c7Coordinator.backends.map (fun b => b.context)) :=
  ⟨rfl,
   (c7_execute_spec c7Coordinator).2 rfl
     (by
       intro b hb
       simp [c7Coordinator] at hb
       rcases hb with h | h <;> rw [h] <;> rfl)⟩

/-- C8 counterexample.  Registering two backends with the same context
appends both: add_backend returns the grown coordinator and has no
error channel, so nothing rejects or reports the duplicate. -/
theorem c8_counterexample :
    ((Coordinator.new.addBackend (trivialBackend "visual")).addBackend
        (trivialBackend "visual")).backends.map (fun b => b.context)
      = ["visual", "visual"] :=
  rfl

/-- find_backend_for_context resolves to the first matching backend. -/
theorem findBackend_skips_prefix (target : String) (b1 b2 : CoordBackend)
    (hb1 : b1.context = target) :
    ∀ (bs : List CoordBackend) (i : Nat), (∀ b ∈ bs, b.context ≠ target) →
      (enumFrom i (bs ++ [b1, b2])).find? (fun p => p.2.context == target)
        = some (i + bs.length, b1) := by
  intro bs
  induction bs with
  | nil =>
      intro i _
      simp [enumFrom, List.find?, hb1]
  | cons b rest ih =>
      intro i hne
      have hbne : (b.context == target) = false := by
        simp only [beq_eq_false_iff_ne, ne_eq]
        exact hne b (by simp)
      simp only [List.cons_append, enumFrom, List.find?, hbne, List.append_eq]
      rw [ih (i + 1) (fun x hx => hne x (by simp [hx]))]
      simp only [List.length_cons]
      have harith : i + 1 + rest.length = i + (rest.length + 1) := by omega
      rw [harith]

/-- C8 (amended).  add_backend appends unconditionally; after two
same-context registrations both backends are present, the duplicate is
reported nowhere, and find_backend_for_context silently resolves the
context to the first of the two. -/
theorem c8_add_backend_appends (c : Coordinator) (context : Context) (b1 b2 : CoordBackend)
    (hb1 : b1.context = contextToStr context) (_hb2 : b2.context = contextToStr context)
    (hfresh : ∀ b ∈ c.backends, b.context ≠ contextToStr context) :
    ((c.addBackend b1).addBackend b2).backends = c.backends ++ [b1, b2] ∧
    findBackendForContext ((c.addBackend b1).addBackend b2) context
      = .ok c.backends.length := by
  constructor
  · simp [Coordinator.addBackend]
  · have h := findBackend_skips_prefix (contextToStr context) b1 b2 hb1 c.backends 0 hfresh
    simp only [Coordinator.addBackend, List.append_assoc, List.singleton_append] at h ⊢
    simp [findBackendForContext, h]

/-- C8 witness: c8_add_backend_appends at a fresh coordinator and two
Visual backends. -/
theorem c8_witness :
    ((Coordinator.new.addBackend (trivialBackend "visual")).addBackend
        (trivialBackend "visual")).backends
      = Coordinator.new.backends ++ [trivialBackend "visual", trivialBackend "visual"] ∧
    findBackendForContext
        ((Coordinator.new.addBackend (trivialBackend "visual")).addBackend
          (trivialBackend "visual")) Context.visual
      = .ok Coordinator.new.backends.length :=
  c8_add_backend_appends Coordinator.new Context.visual (trivialBackend "visual")
    (trivialBackend "visual") rfl rfl (by intro b hb; cases hb)

/-- Whether an expression is a Tuple (the constructor test of the
collect_instances branch). -/
def isTuple : ASTNode → Bool
  | .tuple _ => true
  | _ => false

/-- Inserting a fresh key appends. -/
theorem upsert_append {α : Type} (l : List (String × α)) (k : String) (v : α)
    (h : ∀ p ∈ l, p.1 ≠ k) : upsert l k v = l ++ [(k, v)] := by
  induction l with
  | nil => rfl
  | cons p rest ih =>
      obtain ⟨k2, v2⟩ := p
      have hp : k2 ≠ k := h (k2, v2) (by simp)
      simp only [upsert, if_neg hp, List.cons_append]
      rw [ih (fun q hq => h q (by simp [hq]))]

/-- A key absent from every pair looks up to none. -/
theorem lookupKey_eq_none {α : Type} (l : List (String × α)) (k : String)
    (h : ∀ p ∈ l, p.1 ≠ k) : lookupKey l k = none := by
  induction l with
  | nil => rfl
  | cons p rest ih =>
      obtain ⟨k2, v2⟩ := p
      have hp : k2 ≠ k := h (k2, v2) (by simp)
      simp only [lookupKey, if_neg hp]
      exact ih (fun q hq => h q (by simp [hq]))

/-- The non-tuple branch of collect_instances builds the identical-
expression maps. -/
theorem collectWhole_map (expr : ASTNode) :
    ∀ (outs : List String) (acc : BindAcc), outs.Nodup →
      (∀ o ∈ outs, ∀ p ∈ acc.outputs, p.1 ≠ o) →
      (∀ o ∈ outs, ∀ p ∈ acc.output_deps, p.1 ≠ o) →
      (outs.foldl (collectWholeStep expr) acc).outputs
          = acc.outputs ++ outs.map (fun o => (o, expr)) ∧
      (outs.foldl (collectWholeStep expr) acc).output_deps
          = acc.output_deps ++ outs.map (fun o => (o, findOutputDepsInExpr expr [])) := by
  intro outs
  induction outs with
  | nil => intro acc _ _ _; simp
  | cons o rest ih =>
      intro acc hnd hf1 hf2
      have ho1 : ∀ p ∈ acc.outputs, p.1 ≠ o := hf1 o (by simp)
      have ho2 : ∀ p ∈ acc.output_deps, p.1 ≠ o := hf2 o (by simp)
      have hnd2 : rest.Nodup := (List.nodup_cons.mp hnd).2
      have honr : o ∉ rest := (List.nodup_cons.mp hnd).1
      have hstep : collectWholeStep expr acc o =
          { outputs := acc.outputs ++ [(o, expr)]
            output_deps := acc.output_deps ++ [(o, findOutputDepsInExpr expr [])]
            all_deps := extendSet acc.all_deps (findDepsInExpr expr []) } := by
        simp [collectWholeStep, upsert_append _ _ _ ho1, upsert_append _ _ _ ho2]
      have hf1b : ∀ o2 ∈ rest, ∀ p ∈ acc.outputs ++ [(o, expr)], p.1 ≠ o2 := by
        intro o2 ho2m p hp
        rcases List.mem_append.mp hp with hold | hnew
        · exact hf1 o2 (by simp [ho2m]) p hold
        · simp at hnew
          rw [hnew]
          show ¬ o = o2
          intro hc
          rw [hc] at honr
          exact honr ho2m
      have hf2b : ∀ o2 ∈ rest, ∀ p ∈ acc.output_deps ++ [(o, findOutputDepsInExpr expr [])],
          p.1 ≠ o2 := by
        intro o2 ho2m p hp
        rcases List.mem_append.mp hp with hold | hnew
        · exact hf2 o2 (by simp [ho2m]) p hold
        · simp at hnew
          rw [hnew]
          show ¬ o = o2
          intro hc
          rw [hc] at honr
          exact honr ho2m
      have := ih { outputs := acc.outputs ++ [(o, expr)]
                   output_deps := acc.output_deps ++ [(o, findOutputDepsInExpr expr [])]
                   all_deps := extendSet acc.all_deps (findDepsInExpr expr []) }
        hnd2 hf1b hf2b
      simp only [List.foldl_cons, hstep]
      rw [this.1, this.2]
      simp

/-- The tuple branch pairs outputs with same-index tuple items and
silently drops outputs past the tuple's end. -/
theorem collectTuple_zip (items : List ASTNode) :
    ∀ (outs : List String) (i : Nat) (acc : BindAcc), outs.Nodup →
      (∀ o ∈ outs, ∀ p ∈ acc.outputs, p.1 ≠ o) →
      (∀ o ∈ outs, ∀ p ∈ acc.output_deps, p.1 ≠ o) →
      ((enumFrom i outs).foldl (collectTupleStep items) acc).outputs
          = acc.outputs ++ outs.zip (items.drop i) ∧
      ((enumFrom i outs).foldl (collectTupleStep items) acc).output_deps
          = acc.output_deps ++
              (outs.zip (items.drop i)).map (fun p => (p.1, findOutputDepsInExpr p.2 [])) := by
  intro outs
  induction outs with
  | nil => intro i acc _ _ _; simp [enumFrom]
  | cons o rest ih =>
      intro i acc hnd hf1 hf2
      have hnd2 : rest.Nodup := (List.nodup_cons.mp hnd).2
      have honr : o ∉ rest := (List.nodup_cons.mp hnd).1
      simp only [enumFrom, List.foldl_cons]
      cases hit : items.get? i with
      | none =>
          have hlen : items.length ≤ i := List.get?_eq_none.mp hit
          have hd1 : items.drop i = [] := List.drop_eq_nil_of_le hlen
          have hd2 : items.drop (i + 1) = [] := List.drop_eq_nil_of_le (by omega)
          have hit2 : items[i]? = none := by
            rw [← List.get?_eq_getElem?]
            exact hit
          have hstep : collectTupleStep items acc (i, o) = acc := by
            simp [collectTupleStep, hit2]
          rw [hstep]
          have := ih (i + 1) acc hnd2
            (fun o2 h2 => hf1 o2 (by simp [h2]))
            (fun o2 h2 => hf2 o2 (by simp [h2]))
          rw [this.1, this.2, hd1, hd2]
          simp
      | some expr =>
          have hlt : i < items.length := by
            by_contra hge
            rw [List.get?_eq_none.mpr (by omega)] at hit
            cases hit
          have hdrop : items.drop i = expr :: items.drop (i + 1) := by
            rw [List.drop_eq_getElem_cons hlt]
            congr 1
            have := List.get?_eq_getElem? items i
            rw [hit] at this
            have h2 := (List.getElem?_eq_some.mp this.symm)
            rcases h2 with ⟨hlt2, hv⟩
            exact hv
          have ho1 : ∀ p ∈ acc.outputs, p.1 ≠ o := hf1 o (by simp)
          have ho2 : ∀ p ∈ acc.output_deps, p.1 ≠ o := hf2 o (by simp)
          have hit2 : items[i]? = some expr := by
            rw [← List.get?_eq_getElem?]
            exact hit
          have hstep : collectTupleStep items acc (i, o) =
              { outputs := acc.outputs ++ [(o, expr)]
                output_deps := acc.output_deps ++ [(o, findOutputDepsInExpr expr [])]
                all_deps := extendSet acc.all_deps (findDepsInExpr expr []) } := by
            simp [collectTupleStep, hit2, upsert_append _ _ _ ho1, upsert_append _ _ _ ho2]
          rw [hstep]
          have hf1b : ∀ o2 ∈ rest, ∀ p ∈ acc.outputs ++ [(o, expr)], p.1 ≠ o2 := by
            intro o2 ho2m p hp
            rcases List.mem_append.mp hp with hold | hnew
            · exact hf1 o2 (by simp [ho2m]) p hold
            · simp at hnew
              rw [hnew]
              show ¬ o = o2
              intro hc
              rw [hc] at honr
              exact honr ho2m
          have hf2b : ∀ o2 ∈ rest, ∀ p ∈ acc.output_deps ++ [(o, findOutputDepsInExpr expr [])],
              p.1 ≠ o2 := by
            intro o2 ho2m p hp
            rcases List.mem_append.mp hp with hold | hnew
            · exact hf2 o2 (by simp [ho2m]) p hold
            · simp at hnew
              rw [hnew]
              show ¬ o = o2
              intro hc
              rw [hc] at honr
              exact honr ho2m
          have := ih (i + 1)
            { outputs := acc.outputs ++ [(o, expr)]
              output_deps := acc.output_deps ++ [(o, findOutputDepsInExpr expr [])]
              all_deps := extendSet acc.all_deps (findDepsInExpr expr []) }
            hnd2 hf1b hf2b
          rw [this.1, this.2, hdrop]
          simp [List.zip_cons_cons]

/-- With a Nodup output list, a name past the zipped prefix is not a
key of the zip. -/
theorem zip_fst_ne_drop {α : Type} :
    ∀ (outs : List String) (vals : List α) (o : String), outs.Nodup →
      o ∈ outs.drop vals.length → ∀ q ∈ outs.zip vals, q.1 ≠ o := by
  intro outs
  induction outs with
  | nil => intro vals o _ _ q hq; simp at hq
  | cons x rest ih =>
      intro vals o hnd hmem q hq
      cases vals with
      | nil => simp [List.zip_nil_right] at hq
      | cons v vrest =>
          simp only [List.length_cons, List.drop_succ_cons] at hmem
          have homem : o ∈ rest := List.drop_subset _ _ hmem
          simp only [List.zip_cons_cons, List.mem_cons] at hq
          rcases hq with hq | hq
          · rw [hq]
            show ¬ x = o
            intro hc
            rw [hc] at hnd
            exact (List.nodup_cons.mp hnd).1 homem
          · exact ih vrest o (List.nodup_cons.mp hnd).2 hmem q hq

/-- A non-tuple expression takes the sharing branch. -/
theorem collectBindAcc_not_tuple (outs : List String) (e : ASTNode) (h : isTuple e = false) :
    collectBindAcc outs e
      = outs.foldl (collectWholeStep e) { outputs := [], output_deps := [], all_deps := [] } := by
  cases e <;> first
    | rfl
    | simp [isTuple] at h

/-- C5 (amended).  The tuple branch of collect_instances is taken for
every Tuple expression regardless of arity: each declared output (names
assumed distinct) is bound to its same-index tuple item, outputs past
the tuple's end are dropped from both the outputs and output_deps maps;
only a non-Tuple expression is shared whole by every declared output.
The claim's middle conjunct fails for arity-mismatched tuples (see the
counterexample). -/
theorem c5_binding_outputs (name : String) (outs : List String) (items : List ASTNode)
    (e : ASTNode) (env : Env) (hnd : outs.Nodup) (hnt : isTuple e = false) :
    (collectBinding name outs (.tuple items) env).outputs = outs.zip items ∧
    (collectBinding name outs (.tuple items) env).output_deps
        = (outs.zip items).map (fun p => (p.1, findOutputDepsInExpr p.2 [])) ∧
    (∀ o ∈ outs.drop items.length,
        lookupKey (collectBinding name outs (.tuple items) env).outputs o = none ∧
        lookupKey (collectBinding name outs (.tuple items) env).output_deps o = none) ∧
    (collectBinding name outs e env).outputs = outs.map (fun o => (o, e)) ∧
    (collectBinding name outs e env).output_deps
        = outs.map (fun o => (o, findOutputDepsInExpr e [])) := by
  have htup := collectTuple_zip items outs 0 { outputs := [], output_deps := [], all_deps := [] }
    hnd (by intro o _ p hp; cases hp) (by intro o _ p hp; cases hp)
  have hwhole := collectWhole_map e outs { outputs := [], output_deps := [], all_deps := [] }
    hnd (by intro o _ p hp; cases hp) (by intro o _ p hp; cases hp)
  have h1 : (collectBinding name outs (.tuple items) env).outputs = outs.zip items := by
    show (collectBindAcc outs (.tuple items)).outputs = outs.zip items
    rw [collectBindAcc]
    rw [htup.1]
    simp
  have h2 : (collectBinding name outs (.tuple items) env).output_deps
      = (outs.zip items).map (fun p => (p.1, findOutputDepsInExpr p.2 [])) := by
    show (collectBindAcc outs (.tuple items)).output_deps = _
    rw [collectBindAcc]
    rw [htup.2]
    simp
  refine ⟨h1, h2, ?_, ?_, ?_⟩
  · intro o hmem
    have hfresh := zip_fst_ne_drop outs items o hnd hmem
    constructor
    · rw [h1]
      exact lookupKey_eq_none _ _ hfresh
    · rw [h2]
      apply lookupKey_eq_none
      intro p hp
      rcases List.mem_map.mp hp with ⟨q, hq, hpq⟩
      rw [← hpq]
      exact hfresh q hq
  · show (collectBindAcc outs e).outputs = _
    rw [collectBindAcc_not_tuple outs e hnt, hwhole.1]
    simp
  · show (collectBindAcc outs e).output_deps = _
    rw [collectBindAcc_not_tuple outs e hnt, hwhole.2]
    simp

/-- C5 counterexample.  The binding t<a, b> = (1) has a tuple expression
whose arity (1) differs from outputs.len() (2), so by the claim every
output should receive the whole expression; instead the tuple branch
runs, a is bound to the item 1, and b is dropped from the outputs map
entirely. -/
theorem c5_counterexample :
    ([ASTNode.num 1] : List ASTNode).length ≠ (["a", "b"] : List String).length ∧
    (collectBinding "t" ["a", "b"] (.tuple [.num 1]) emptyEnv).outputs
        = [("a", ASTNode.num 1)] ∧
    lookupKey (collectBinding "t" ["a", "b"] (.tuple [.num 1]) emptyEnv).outputs "b" = none ∧
    (collectBinding "t" ["a", "b"] (.tuple [.num 1]) emptyEnv).outputs
        ≠ ["a", "b"].map (fun o => (o, ASTNode.tuple [.num 1])) := by
  refine ⟨by decide, rfl, rfl, ?_⟩
  intro h
  have h0 : (collectBinding "t" ["a", "b"] (.tuple [.num 1]) emptyEnv).outputs
      = [("a", ASTNode.num 1)] := rfl
  rw [h0] at h
  have hlen := congrArg List.length h
  simp at hlen

/-- C5 witness: c5_binding_outputs at w<x, y> with a three-item tuple
and with a plain literal. -/
theorem c5_witness :
    (["x", "y"] : List String).Nodup ∧ isTuple (ASTNode.num 7) = false ∧
    (collectBinding "w" ["x", "y"] (.tuple [.num 1, .num 2, .num 3]) emptyEnv).outputs
        = ["x", "y"].zip [ASTNode.num 1, ASTNode.num 2, ASTNode.num 3] ∧
    (collectBinding "w" ["x", "y"] (.num 7) emptyEnv).outputs
        = ["x", "y"].map (fun o => (o, ASTNode.num 7)) :=
  ⟨by decide, rfl,
   (c5_binding_outputs "w" ["x", "y"] [ASTNode.num 1, ASTNode.num 2, ASTNode.num 3]
     (.num 7) emptyEnv (by decide) rfl).1,
   (c5_binding_outputs "w" ["x", "y"] [ASTNode.num 1, ASTNode.num 2, ASTNode.num 3]
     (.num 7) emptyEnv (by decide) rfl).2.2.2.1⟩

/-- Check that the node registered under a duplicate's concrete name
carries the matching context (holds for every state create_duplicates
produces, where name$ctx is built with context Some ctx). -/
def nameCtxOk (st : RenderGraph) (name : String) (context : Context) : Bool :=
  match lookupKey st.nodeIndices name with
  | some i =>
      match st.nodes.get? i with
      | some n => n.context == some context
      | none => true
  | none => true

/-- The duplicate-clone naming invariant at exactly the instances
phase3's duplicated-pair branch consults. -/
def dupInvB (st : RenderGraph) : Bool :=
  st.originalEdges.all fun cp =>
    match lookupKey st.duplicateInto cp.1, lookupKey st.duplicateInto cp.2 with
    | some contexts, some _ =>
        contexts.all fun context =>
          nameCtxOk st (cp.1 ++ "$" ++ context.lowerName) context &&
          nameCtxOk st (cp.2 ++ "$" ++ context.lowerName) context
    | _, _ => true

/-- Fold preservation of an invariant, with membership of the folded
element available to the step hypothesis. -/
theorem foldl_inv {σ β : Type} (inv : σ → Prop) (step : σ → β → σ) :
    ∀ (l : List β), (∀ acc b, b ∈ l → inv acc → inv (step acc b)) →
      ∀ acc, inv acc → inv (l.foldl step acc) := by
  intro l
  induction l with
  | nil => intro _ acc h; exact h
  | cons b t ih =>
      intro hstep acc hacc
      exact ih (fun a b2 hb2 => hstep a b2 (by simp [hb2]))
        (step acc b) (hstep acc b (by simp) hacc)

/-- Membership in an append-accumulating fold comes from the seed or
from one element's contribution. -/
theorem mem_foldl_append {α β : Type} (f : β → List α) :
    ∀ (l : List β) (acc : List α) (x : α),
      x ∈ l.foldl (fun a b => a ++ f b) acc → x ∈ acc ∨ ∃ b ∈ l, x ∈ f b := by
  intro l
  induction l with
  | nil => intro acc x hx; exact Or.inl hx
  | cons b t ih =>
      intro acc x hx
      rcases ih (acc ++ f b) x hx with hacc | ⟨b2, hb2, hxb⟩
      · rcases List.mem_append.mp hacc with h | h
        · exact Or.inl h
        · exact Or.inr ⟨b, by simp, h⟩
      · exact Or.inr ⟨b2, by simp [hb2], hxb⟩

/-- Reading nameCtxOk at a resolved name and live node. -/
theorem nameCtxOk_spec (st : RenderGraph) (name : String) (context : Context) (i : Nat)
    (n : GraphNode) (hok : nameCtxOk st name context = true)
    (hidx : lookupKey st.nodeIndices name = some i) (hn : st.nodes.get? i = some n) :
    n.context = some context := by
  simp only [nameCtxOk, hidx, hn] at hok
  exact beq_iff_eq.mp hok

/-- Unpacking dupInvB at one original edge whose two ends are both
marked for duplication. -/
theorem dupInvB_spec (st : RenderGraph) (hinv : dupInvB st = true) (cp : String × String)
    (hcp : cp ∈ st.originalEdges) (ctxs : List Context)
    (h1 : lookupKey st.duplicateInto cp.1 = some ctxs)
    (h2 : (lookupKey st.duplicateInto cp.2).isSome = true) :
    ∀ context ∈ ctxs,
      nameCtxOk st (cp.1 ++ "$" ++ context.lowerName) context = true ∧
      nameCtxOk st (cp.2 ++ "$" ++ context.lowerName) context = true := by
  intro context hctx
  have hall := List.all_eq_true.mp hinv cp hcp
  rcases Option.isSome_iff_exists.mp h2 with ⟨ctxs2, hl2⟩
  rw [h1, hl2] at hall
  have hb := List.all_eq_true.mp hall context hctx
  simpa using hb

/-- Labels of the edges phase3 builds for one original pair: Normal
exactly when the endpoint contexts agree, given the duplicate naming
invariant at that pair. -/
theorem edgesForPair_labels (st : RenderGraph) (c p : String)
    (hinst : ∀ ctxs, lookupKey st.duplicateInto c = some ctxs →
      (lookupKey st.duplicateInto p).isSome = true →
      ∀ context ∈ ctxs,
        nameCtxOk st (c ++ "$" ++ context.lowerName) context = true ∧
        nameCtxOk st (p ++ "$" ++ context.lowerName) context = true) :
    ∀ e ∈ edgesForPair st c p, ∀ ni nj, st.nodes.get? e.1 = some ni →
      st.nodes.get? e.2.1 = some nj →
      (e.2.2 = EdgeType.normal ↔ ni.context = nj.context) := by
  intro e he ni nj hni hnj
  unfold edgesForPair at he
  split at he
  case isTrue hdup =>
      rcases List.mem_filterMap.mp he with ⟨context, hctxmem, hsome⟩
      cases hci : lookupKey st.nodeIndices (c ++ "$" ++ context.lowerName) with
      | none => rw [hci] at hsome; cases hsome
      | some ci =>
          cases hpi : lookupKey st.nodeIndices (p ++ "$" ++ context.lowerName) with
          | none => rw [hci, hpi] at hsome; cases hsome
          | some pIdx =>
              rw [hci, hpi] at hsome
              have he2 : e = (ci, pIdx, EdgeType.normal) := by
                cases hsome
                rfl
              rcases Option.isSome_iff_exists.mp hdup.1 with ⟨ctxs, hctxs⟩
              have hgd : (lookupKey st.duplicateInto c).getD [] = ctxs := by
                rw [hctxs]
                rfl
              rw [hgd] at hctxmem
              have hok := hinst ctxs hctxs hdup.2 context hctxmem
              subst he2
              have hnic : ni.context = some context :=
                nameCtxOk_spec st _ context ci ni hok.1 hci hni
              have hnjc : nj.context = some context :=
                nameCtxOk_spec st _ context pIdx nj hok.2 hpi hnj
              simp [hnic, hnjc]
  case isFalse hdup =>
      rcases mem_foldl_append _ _ _ _ he with hnil | ⟨ci, _, hmem⟩
      · cases hnil
      rcases List.mem_filterMap.mp hmem with ⟨pIdx, _, hsome⟩
      by_cases hskip : ((lookupKey st.duplicateInto c).isSome ∨
          (lookupKey st.duplicateInto p).isSome : Prop) ∧ ¬ ctxOf st ci = ctxOf st pIdx
      · rw [if_pos hskip] at hsome
        cases hsome
      · rw [if_neg hskip] at hsome
        have he2 : e = (ci, pIdx,
            if ctxOf st ci = ctxOf st pIdx then EdgeType.normal else EdgeType.reference) := by
          cases hsome
          rfl
        subst he2
        have hci : ctxOf st ci = ni.context := by
          simp only [ctxOf]
          rw [hni]
          rfl
        have hpj : ctxOf st pIdx = nj.context := by
          simp only [ctxOf]
          rw [hnj]
          rfl
        by_cases heq : ctxOf st ci = ctxOf st pIdx
        · rw [if_pos heq]
          rw [hci, hpj] at heq
          simp [heq]
        · rw [if_neg heq]
          rw [hci, hpj] at heq
          simp [heq]

/-- C9 part 1, as a reusable lemma: every edge the typed rebuild
produces is labeled Normal exactly when the endpoint contexts agree. -/
theorem phase3_labels_consistent (st : RenderGraph) (hinv : dupInvB st = true) :
    ∀ e ∈ (phase3BuildTypedEdges st).edges, ∀ ni nj,
      st.nodes.get? e.1 = some ni → st.nodes.get? e.2.1 = some nj →
      (e.2.2 = EdgeType.normal ↔ ni.context = nj.context) := by
  intro e he ni nj hni hnj
  have hmem : e ∈ st.originalEdges.foldl
      (fun acc cp => acc ++ edgesForPair st cp.1 cp.2) [] := he
  rcases mem_foldl_append _ _ _ _ hmem with hnil | ⟨cp, hcp, hpair⟩
  · cases hnil
  exact edgesForPair_labels st cp.1 cp.2
    (fun ctxs h1 h2 => dupInvB_spec st hinv cp hcp ctxs h1 h2) e hpair ni nj hni hnj

/-- Elements of enumFrom carry their own list position. -/
theorem enumFrom_spec {α : Type} :
    ∀ (l : List α) (k i : Nat) (x : α), (i, x) ∈ enumFrom k l →
      k ≤ i ∧ l.get? (i - k) = some x := by
  intro l
  induction l with
  | nil => intro k i x h; cases h
  | cons a t ih =>
      intro k i x h
      rcases List.mem_cons.mp h with hh | ht
      · have hik : i = k ∧ x = a := by
          constructor
          · exact congrArg Prod.fst hh
          · exact congrArg Prod.snd hh
        rcases hik with ⟨h1, h2⟩
        subst h1
        subst h2
        simp
      · rcases ih (k + 1) i x ht with ⟨hle, hget⟩
        constructor
        · omega
        · have harith : i - k = (i - (k + 1)) + 1 := by omega
          rw [harith]
          simpa using hget

/-- The grouping invariant: every (index, node) pair a context group
holds is a live arena entry with that context. -/
def GroupInv (nodes : List GraphNode) (acc : List (Context × List (Nat × GraphNode))) : Prop :=
  ∀ cg ∈ acc, ∀ p ∈ cg.2, nodes.get? p.1 = some p.2 ∧ p.2.context = some cg.1

/-- pushGroup preserves the grouping invariant when the pushed pair is a
live entry of the pushed context. -/
theorem pushGroup_inv (nodes : List GraphNode) (ctx : Context) (x : Nat × GraphNode)
    (hx1 : nodes.get? x.1 = some x.2) (hx2 : x.2.context = some ctx) :
    ∀ (acc : List (Context × List (Nat × GraphNode))), GroupInv nodes acc →
      GroupInv nodes (pushGroup acc ctx x) := by
  intro acc
  induction acc with
  | nil =>
      intro _ cg hcg p hp
      simp only [pushGroup, List.mem_singleton] at hcg
      subst hcg
      simp only [List.mem_singleton] at hp
      subst hp
      exact ⟨hx1, hx2⟩
  | cons cg0 rest ih =>
      intro hinv cg hcg p hp
      simp only [pushGroup] at hcg
      by_cases hc : cg0.1 = ctx
      · rw [if_pos hc] at hcg
        rcases List.mem_cons.mp hcg with hh | ht
        · subst hh
          rcases List.mem_append.mp hp with hold | hnew
          · exact hinv cg0 (by simp) p hold
          · simp only [List.mem_singleton] at hnew
            subst hnew
            rw [hc]
            exact ⟨hx1, hx2⟩
        · exact hinv cg (by simp [ht]) p hp
      · rw [if_neg hc] at hcg
        rcases List.mem_cons.mp hcg with hh | ht
        · subst hh
          exact hinv cg0 (by simp) p hp
        · exact ih (fun cg2 hcg2 p2 hp2 => hinv cg2 (by simp [hcg2]) p2 hp2) cg ht p hp

/-- Every group nodesByContext builds satisfies the grouping invariant. -/
theorem nodesByContext_inv (nodes : List GraphNode) :
    GroupInv nodes (nodesByContext nodes) := by
  unfold nodesByContext
  have hgen : ∀ (l : List (Nat × GraphNode)) (acc : List (Context × List (Nat × GraphNode))),
      (∀ q ∈ l, nodes.get? q.1 = some q.2) → GroupInv nodes acc →
      GroupInv nodes (l.foldl
        (fun acc p =>
          match p.2.context with
          | some ctx => pushGroup acc ctx p
          | none => acc) acc) := by
    intro l
    induction l with
    | nil => intro acc _ h; exact h
    | cons q t ih =>
        intro acc hl hacc
        apply ih
        · intro q2 hq2
          exact hl q2 (by simp [hq2])
        · cases hq : q.2.context with
          | none => simpa [hq] using hacc
          | some ctx =>
              have := pushGroup_inv nodes ctx q (hl q (by simp)) hq acc hacc
              simpa [hq] using this
  apply hgen
  · intro q hq
    have := enumFrom_spec nodes 0 q.1 q.2 (by simpa using hq)
    simpa using this.2
  · intro cg hcg
    cases hcg

/-- oldToNew resolves to a position holding the looked-up old index. -/
theorem oldToNew_spec :
    ∀ (group : List (Nat × GraphNode)) (old j : Nat), oldToNew group old = some j →
      ∃ nd, group.get? j = some (old, nd) := by
  intro group
  induction group with
  | nil => intro old j h; cases h
  | cons p rest ih =>
      intro old j h
      simp only [oldToNew] at h
      by_cases hp : p.1 = old
      · rw [if_pos hp] at h
        have hj : j = 0 := by
          cases h
          rfl
        subst hj
        refine ⟨p.2, ?_⟩
        have : p = (old, p.2) := by
          rw [← hp]
        rw [← this]
        rfl
      · rw [if_neg hp] at h
        cases hrec : oldToNew rest old with
        | none => rw [hrec] at h; cases h
        | some j2 =>
            rw [hrec] at h
            have hj : j = j2 + 1 := by
              cases h
              rfl
            subst hj
            rcases ih old j2 hrec with ⟨nd, hnd⟩
            exact ⟨nd, by simpa using hnd⟩

/-- The per-edge properties the extraction must deliver for one group. -/
abbrev GroupPairInv (context : Context) (group : List (Nat × GraphNode))
    (acc : List (Nat × Nat) × List Reference) : Prop :=
  (∀ ij ∈ acc.1,
    (∀ ni, (group.map (fun p => p.2)).get? ij.1 = some ni → ni.context = some context) ∧
    (∀ nj, (group.map (fun p => p.2)).get? ij.2 = some nj → nj.context = some context)) ∧
  (∀ r ∈ acc.2, r.from_context ≠ r.to_context)

/-- Edge-label consistency of a graph state. -/
def LabelsConsistent (st : RenderGraph) : Prop :=
  ∀ e ∈ st.edges, ∀ ni nj : GraphNode,
    st.nodes.get? e.1 = some ni → st.nodes.get? e.2.1 = some nj →
    (e.2.2 = EdgeType.normal ↔ ni.context = nj.context)

/-- The local edges of a group keep its context, and the references it
emits always cross contexts. -/
theorem groupRefsEdges_inv (st : RenderGraph) (hcons : LabelsConsistent st)
    (context : Context) (group : List (Nat × GraphNode))
    (hg : ∀ p ∈ group, st.nodes.get? p.1 = some p.2 ∧ p.2.context = some context) :
    GroupPairInv context group (groupRefsEdges st context group) := by
  unfold groupRefsEdges
  apply foldl_inv (GroupPairInv context group)
  · intro acc p hpmem hacc
    apply foldl_inv (GroupPairInv context group)
    · intro acc2 e hemem hacc2
      obtain ⟨ha1, ha2⟩ := hacc2
      have he : e ∈ st.edges ∧ (e.1 == p.1) = true := List.mem_filter.mp hemem
      cases hty : e.2.2 with
      | normal =>
          cases hon1 : oldToNew group e.1 with
          | none =>
              simp only [hon1]
              exact ⟨ha1, ha2⟩
          | some s =>
              cases hon2 : oldToNew group e.2.1 with
              | none =>
                  simp only [hon1, hon2]
                  exact ⟨ha1, ha2⟩
              | some t =>
                  simp only [hon1, hon2]
                  constructor
                  · intro ij hij
                    rcases List.mem_append.mp hij with hold | hnew
                    · exact ha1 ij hold
                    · simp only [List.mem_singleton] at hnew
                      subst hnew
                      constructor
                      · intro ni hni
                        rcases oldToNew_spec group e.1 s hon1 with ⟨nd, hnd⟩
                        have hmap : (group.map (fun p => p.2)).get? s = some nd := by
                          rw [List.get?_map, hnd]
                          rfl
                        rw [hmap] at hni
                        have hctx := (hg (e.1, nd) (List.get?_mem hnd)).2
                        have hnieq : ni = nd := (Option.some.inj hni).symm
                        rw [hnieq]
                        exact hctx
                      · intro nj hnj
                        rcases oldToNew_spec group e.2.1 t hon2 with ⟨nd, hnd⟩
                        have hmap : (group.map (fun p => p.2)).get? t = some nd := by
                          rw [List.get?_map, hnd]
                          rfl
                        rw [hmap] at hnj
                        have hctx := (hg (e.2.1, nd) (List.get?_mem hnd)).2
                        have hnjeq : nj = nd := (Option.some.inj hnj).symm
                        rw [hnjeq]
                        exact hctx
                  · exact ha2
      | reference =>
          cases htn : st.nodes.get? e.2.1 with
          | none =>
              simp only [htn]
              exact ⟨ha1, ha2⟩
          | some toNode =>
              cases htc : toNode.context with
              | none =>
                  simp only [htn, htc]
                  exact ⟨ha1, ha2⟩
              | some toContext =>
                  simp only [htn, htc]
                  refine ⟨ha1, ?_⟩
                  intro r hr
                  rcases List.mem_append.mp hr with hold | hnew
                  · exact ha2 r hold
                  · simp only [List.mem_singleton] at hnew
                    subst hnew
                    have hsrc : st.nodes.get? e.1 = some p.2 := by
                      have hep : e.1 = p.1 := beq_iff_eq.mp he.2
                      rw [hep]
                      exact (hg p hpmem).1
                    have hiff := hcons e he.1 p.2 toNode hsrc htn
                    have hne : ¬ p.2.context = toNode.context := by
                      intro hceq
                      have hno : e.2.2 = EdgeType.normal := hiff.mpr hceq
                      rw [hty] at hno
                      cases hno
                    show ¬ toContext = context
                    intro hceq
                    apply hne
                    rw [(hg p hpmem).2, htc, hceq]
    · exact hacc
  · constructor
    · intro ij h
      cases h
    · intro r h
      cases h

/-- The per-subgraph half of the C9 property: inside a subgraph every
edge joins two nodes carrying the subgraph's context. -/
abbrev SubOK (cs : Context × Subgraph) : Prop :=
  ∀ ij ∈ cs.2.edges, ∀ ni nj, cs.2.nodes.get? ij.1 = some ni →
    cs.2.nodes.get? ij.2 = some nj →
    ni.context = some cs.2.context ∧ nj.context = some cs.2.context

/-- Shape of a successful extractStep: the references grow by the
group's references and the one new subgraph is built from the group. -/
theorem extractStep_ok (st : RenderGraph)
    (acc : List (Context × Subgraph) × List Reference)
    (cg : Context × List (Nat × GraphNode))
    (res2 : List (Context × Subgraph) × List Reference)
    (h : extractStep st acc cg = .ok res2) :
    res2.2 = acc.2 ++ (groupRefsEdges st cg.1 cg.2).2 ∧
    ∀ cs ∈ res2.1, cs ∈ acc.1 ∨
      (cs.2.edges = (groupRefsEdges st cg.1 cg.2).1 ∧
       cs.2.nodes = cg.2.map (fun p => p.2) ∧ cs.2.context = cg.1) := by
  simp only [extractStep] at h
  cases hk : kahnSort (groupRefsEdges st cg.1 cg.2).1
      (List.range (cg.2.map (fun p => p.2)).length) with
  | none =>
      rw [hk] at h
      cases h
  | some order =>
      rw [hk] at h
      have hres := (Except.ok.inj h).symm
      subst hres
      constructor
      · rfl
      · intro cs hcs
        rcases List.mem_append.mp hcs with hold | hnew
        · exact Or.inl hold
        · simp only [List.mem_singleton] at hnew
          subst hnew
          exact Or.inr ⟨rfl, rfl, rfl⟩

/-- Folding extractStep over well-formed groups preserves the C9
extraction properties. -/
theorem extract_fold_inv (st : RenderGraph) (hcons : LabelsConsistent st) :
    ∀ (groups : List (Context × List (Nat × GraphNode)))
      (acc : List (Context × Subgraph) × List Reference),
      (∀ cg ∈ groups, ∀ p ∈ cg.2, st.nodes.get? p.1 = some p.2 ∧ p.2.context = some cg.1) →
      (∀ r ∈ acc.2, r.from_context ≠ r.to_context) →
      (∀ cs ∈ acc.1, SubOK cs) →
      ∀ res, groups.foldlM (extractStep st) acc = .ok res →
        (∀ r ∈ res.2, r.from_context ≠ r.to_context) ∧ (∀ cs ∈ res.1, SubOK cs) := by
  intro groups
  induction groups with
  | nil =>
      intro acc _ hr hs res hres
      have : acc = res := Except.ok.inj hres
      subst this
      exact ⟨hr, hs⟩
  | cons cg t ih =>
      intro acc hwf hr hs res hres
      rw [List.foldlM_cons] at hres
      cases hstep : extractStep st acc cg with
      | error e =>
          rw [hstep] at hres
          have : (Except.error e : Except String (List (Context × Subgraph) × List Reference))
              >>= (fun a => t.foldlM (extractStep st) a) = Except.error e := rfl
          rw [this] at hres
          cases hres
      | ok acc2 =>
          rw [hstep] at hres
          have hbind : (Except.ok acc2 : Except String (List (Context × Subgraph) × List Reference))
              >>= (fun a => t.foldlM (extractStep st) a) = t.foldlM (extractStep st) acc2 := rfl
          rw [hbind] at hres
          have hg : ∀ p ∈ cg.2, st.nodes.get? p.1 = some p.2 ∧ p.2.context = some cg.1 :=
            hwf cg (by simp)
          have hgrp := groupRefsEdges_inv st hcons cg.1 cg.2 hg
          rcases extractStep_ok st acc cg acc2 hstep with ⟨hrefs2, hsubs2⟩
          apply ih acc2 (fun cg2 hcg2 => hwf cg2 (by simp [hcg2]))
          · intro r hr2
            rw [hrefs2] at hr2
            rcases List.mem_append.mp hr2 with hold | hnew
            · exact hr r hold
            · exact hgrp.2 r hnew
          · intro cs hcs
            rcases hsubs2 cs hcs with hold | ⟨he, hn, hc⟩
            · exact hs cs hold
            · intro ij hij ni nj hni hnj
              rw [he] at hij
              rw [hn] at hni hnj
              rw [hc]
              exact ⟨(hgrp.1 ij hij).1 ni hni, (hgrp.1 ij hij).2 nj hnj⟩
          · exact hres

/-- C9.  For every edge produced by the typed edge rebuild, the label is
Normal exactly when the endpoint contexts are equal (given the
duplicate naming invariant create_duplicates establishes); carried into
the MetaGraph, every emitted Reference joins two differing contexts and
every edge inside a Subgraph joins two nodes of that subgraph's single
context. -/
theorem c9_edge_type_consistency (st : RenderGraph) (hinv : dupInvB st = true) :
    (∀ e ∈ (phase3BuildTypedEdges st).edges, ∀ ni nj,
        (phase3BuildTypedEdges st).nodes.get? e.1 = some ni →
        (phase3BuildTypedEdges st).nodes.get? e.2.1 = some nj →
        (e.2.2 = EdgeType.normal ↔ ni.context = nj.context)) ∧
    (∀ subs refs, extractSubgraphs (phase3BuildTypedEdges st) = .ok (subs, refs) →
      (∀ r ∈ refs, r.from_context ≠ r.to_context) ∧ (∀ cs ∈ subs, SubOK cs)) := by
  have hlab := phase3_labels_consistent st hinv
  constructor
  · exact hlab
  · intro subs refs hok
    have hcons : LabelsConsistent (phase3BuildTypedEdges st) := hlab
    have hwf := nodesByContext_inv (phase3BuildTypedEdges st).nodes
    have := extract_fold_inv (phase3BuildTypedEdges st) hcons
      (nodesByContext (phase3BuildTypedEdges st).nodes) ([], [])
      hwf (by intro r h; cases h) (by intro cs h; cases h) (subs, refs) hok
    exact this

/-- A two-node, two-context state whose rebuild produces one Reference
edge. -/
def c9Graph : RenderGraph :=
  { nodes := [mkPlainNode "x" (some .visual), mkPlainNode "y" (some .audio)],
    edges := [],
    nodeIndices := [("x", 0), ("y", 1)],
    duplicateInto := [],
    originalEdges := [("x", "y")] }

/-- C9 witness: c9_edge_type_consistency at c9Graph, whose single
rebuilt edge is the Reference (0, 1) between a Visual and an Audio
node. -/
theorem c9_witness :
    dupInvB c9Graph = true ∧
    ((0, 1, EdgeType.reference).2.2 = EdgeType.normal ↔
      (mkPlainNode "x" (some Context.visual)).context
        = (mkPlainNode "y" (some Context.audio)).context) :=
  ⟨rfl,
   (c9_edge_type_consistency c9Graph rfl).1 (0, 1, EdgeType.reference) (by decide)
     (mkPlainNode "x" (some Context.visual)) (mkPlainNode "y" (some Context.audio)) rfl rfl⟩

end Weft
